import Mathlib

/-!
A verification development for the request-forwarding endpoint in
`src/api/generate.ts`.  The JavaScript/TypeScript code is shallowly embedded:
strings are Lean `String`s (operated on through their `List Char` data),
JavaScript values (as produced by `JSON.parse`, request bodies, headers) are
the inductive `JsVal`, and the single exported `handler` becomes a pure
function from the inbound request and an upstream oracle (one entry per
`fetch` call, in call order) to the produced response together with the trace
of upstream calls that were issued.
-/

/-- Characters removed by JavaScript `String.prototype.trim` (the ECMAScript
WhiteSpace and LineTerminator sets; the common members are modelled). -/
def isJsWs (c : Char) : Bool :=
  c = ' ' || c = '\t' || c = '\n' || c = '\r' || c = '\x0b' || c = '\x0c' ||
  c = ' ' || c = '﻿' || c = ' ' || c = ' '

/-- `trim` on character lists: drop whitespace from both ends. -/
def trimList (l : List Char) : List Char :=
  ((l.dropWhile isJsWs).reverse.dropWhile isJsWs).reverse

/-- JavaScript `s.trim()`. -/
def jsTrim (s : String) : String := ⟨trimList s.data⟩

/-- JavaScript `s.startsWith(p)`. -/
def jsStartsWith (s p : String) : Bool := p.data.isPrefixOf s.data

/-- JavaScript `s.endsWith(p)`. -/
def jsEndsWith (s p : String) : Bool := p.data.isSuffixOf s.data

/-- Contiguous-sublist test used to model `String.prototype.includes`. -/
def hasSub (pat : List Char) : List Char → Bool
  | [] => pat.isEmpty
  | c :: rest => pat.isPrefixOf (c :: rest) || hasSub pat rest

/-- JavaScript `s.includes(p)`. -/
def jsIncludes (s p : String) : Bool := hasSub p.data s.data

/-- ASCII lowering, modelling the `/i` regex flag on the patterns involved. -/
def lowerStr (s : String) : String := ⟨s.data.map Char.toLower⟩

/-- Case-insensitive `includes`, modelling `/pat/i.test(s)` for literal
patterns. -/
def ciIncludes (s p : String) : Bool := jsIncludes (lowerStr s) (lowerStr p)

/-- JavaScript `s.slice(0, n)`. -/
def strSlice (s : String) (n : Nat) : String := ⟨s.data.take n⟩

/-- JavaScript `s.slice(0, s.length - n)` (used for dropping a known suffix). -/
def strDropRight (s : String) (n : Nat) : String :=
  ⟨s.data.take (s.data.length - n)⟩

/-- JavaScript values.  Numbers are modelled as rationals (exact decimals);
`undefined` is kept separate from `null` because optional chaining and
`??` distinguish them from other falsy values. -/
inductive JsVal where
  | undefined : JsVal
  | null : JsVal
  | bool : Bool → JsVal
  | num : Rat → JsVal
  | str : String → JsVal
  | arr : List JsVal → JsVal
  | obj : List (String × JsVal) → JsVal

/-- JavaScript truthiness. -/
def JsVal.truthy : JsVal → Bool
  | .undefined => false
  | .null => false
  | .bool b => b
  | .num q => q ≠ 0
  | .str s => s ≠ ""
  | .arr _ => true
  | .obj _ => true

/-- JavaScript `a || b`. -/
def jsOr (a b : JsVal) : JsVal := if a.truthy then a else b

/-- Property read `v[k]` (dot access).  Objects use the last binding of a
duplicated key, as JavaScript object literals and `JSON.parse` do; access on
any non-object yields `undefined` (string/array exotic properties such as
`length` are not used by the embedded code). -/
def JsVal.getF : JsVal → String → JsVal
  | .obj fs, k =>
    match fs.reverse.find? (fun p => p.1 = k) with
    | some p => p.2
    | none => .undefined
  | _, _ => .undefined

/-- Optional chaining `v?.k`. -/
def optChain (v : JsVal) (k : String) : JsVal :=
  match v with
  | .null => .undefined
  | .undefined => .undefined
  | w => w.getF k

/-- Optional chaining with an index, `v?.[i]`. -/
def optIdx (v : JsVal) (i : Nat) : JsVal :=
  match v with
  | .null => .undefined
  | .undefined => .undefined
  | .arr xs => xs.getD i .undefined
  | w => w.getF (toString i)

/-- Integer to string, as JavaScript renders integral numbers. -/
def intStr (n : Int) : String :=
  if n < 0 then "-" ++ toString n.natAbs else toString n.natAbs

/-- JavaScript number-to-string, for numbers with a finite decimal expansion
(the only numbers the embedded code manipulates). -/
def ratToJSString (q : Rat) : String :=
  if q.den = 1 then intStr q.num
  else
    match (List.range 30).find? (fun k => (10 ^ (k + 1)) % q.den = 0) with
    | some k =>
      let places := k + 1
      let scaled := (q.num.natAbs * (10 ^ places / q.den))
      let digits := toString scaled
      let digits := if digits.length ≤ places
        then ⟨List.replicate (places + 1 - digits.length) '0'⟩ ++ digits
        else digits
      let intPart := strDropRight digits places
      let fracPart := ⟨digits.data.drop (digits.data.length - places)⟩
      (if q.num < 0 then "-" else "") ++ intPart ++ "." ++ fracPart
    | none => intStr q.num ++ "/" ++ toString q.den

mutual

/-- JavaScript `String(v)` coercion. -/
def JsVal.toJSStr : JsVal → String
  | .undefined => "undefined"
  | .null => "null"
  | .bool true => "true"
  | .bool false => "false"
  | .num q => ratToJSString q
  | .str s => s
  | .arr xs => String.intercalate "," (jsArrElemStrs xs)
  | .obj _ => "[object Object]"

/-- Array elements under `String(...)`/`join(',')`: `null` and `undefined`
render as the empty string. -/
def jsArrElemStrs : List JsVal → List String
  | [] => []
  | .null :: rest => "" :: jsArrElemStrs rest
  | .undefined :: rest => "" :: jsArrElemStrs rest
  | v :: rest => v.toJSStr :: jsArrElemStrs rest

end

mutual

/-- The regex `^\d+(\.\d+)*$` from `normalizeModel`, after at least one digit
has been consumed (mutually defined with the state expecting a fresh digit
group after a dot). -/
def dnumAfterDigit : List Char → Bool
  | [] => true
  | c :: rest => if c = '.' then dnumGroup rest else c.isDigit && dnumAfterDigit rest

/-- State of the `^\d+(\.\d+)*$` matcher right after a `.`: at least one digit
must follow. -/
def dnumGroup : List Char → Bool
  | [] => false
  | c :: rest => c.isDigit && dnumAfterDigit rest

end

/-- `^\d+(\.\d+)*$`: one or more digits, then dot-separated digit groups. -/
def dottedNumeric (l : List Char) : Bool :=
  match l with
  | [] => false
  | c :: rest => c.isDigit && dnumAfterDigit rest

/-- ECMAScript line terminators (which `.` in a regex does not match). -/
def isLineTerm (c : Char) : Bool :=
  c = '\n' || c = '\r' || c = ' ' || c = ' '

/-- The regex `^4o(-.+)?$` from `normalizeModel`. -/
def fourOPat : List Char → Bool
  | ['4', 'o'] => true
  | '4' :: 'o' :: '-' :: c :: rest => (c :: rest).all (fun ch => !isLineTerm ch)
  | _ => false

/-- `normalizeModel` from `src/api/generate.ts`, on the string obtained from
`String(input || '')`. -/
def normalizeModel (input : String) : String :=
  let m := jsTrim input
  if m = "" then m
  else if jsStartsWith m "gpt-" || jsStartsWith m "o1" then m
  else if jsStartsWith m "gpt" then "gpt-" ++ ⟨m.data.drop 3⟩
  else if dottedNumeric m.data then "gpt-" ++ m
  else if fourOPat m.data then "gpt-" ++ m
  else m

/-- `normalizeModel` applied to an arbitrary JavaScript value, i.e. the
`String(input || '').trim()` entry point. -/
def normalizeModelJs (v : JsVal) : String :=
  normalizeModel (JsVal.toJSStr (jsOr v (.str "")))

/-- `Array.from(new Set(xs))`: deduplication keeping first occurrences. -/
def dedupFirst (seen : List String) : List String → List String
  | [] => []
  | x :: xs =>
    if seen.contains x then dedupFirst seen xs
    else x :: dedupFirst (x :: seen) xs

/-- `getModelFallbacks` from `src/api/generate.ts`. -/
def getModelFallbacks (model : String) : List String :=
  let m := jsTrim model
  if m = "" then []
  else
    let fallbacks :=
      if jsStartsWith m "gpt-4.1" then ["gpt-4o-mini", "gpt-4o", "gpt-4.1-mini"]
      else if jsStartsWith m "gpt-4o" then ["gpt-4o-mini", "gpt-4o"]
      else if jsStartsWith m "gpt-4" then ["gpt-4o-mini", "gpt-4o"]
      else if jsStartsWith m "o1" then ["gpt-4o-mini", "gpt-4o"]
      else if jsIncludes m "gemini-2.0-flash" then ["gemini-1.5-flash", "gemini-1.5-pro"]
      else if jsIncludes m "gemini" then
        ["gemini-1.5-flash", "gemini-1.5-pro", "gemini-2.0-flash-exp"]
      else []
    dedupFirst [] (fallbacks.filter (fun x => x ≠ "" && x ≠ m))

/-- Scheme characters accepted by the URL parser (`[a-zA-Z0-9+.-]`). -/
def isSchemeChar (c : Char) : Bool :=
  c.isAlpha || c.isDigit || c = '+' || c = '-' || c = '.'

/-- Characters terminating the authority component of a URL. -/
def isAuthorityEnd (c : Char) : Bool :=
  c = '/' || c = '?' || c = '#'

/-- The components of a parsed URL that the handler reads. -/
structure UrlParts where
  scheme : String
  hostname : String
  port : String
  path : String
deriving DecidableEq, Repr

/-- Models the WHATWG `new URL(s)` constructor for the absolute
`scheme://host[:port][/path?query#fragment]` URLs this handler works with:
the result is `none` exactly when the constructor would throw.  The hostname
is ASCII-lowercased as the constructor does.  Lenient special-scheme spellings
(`https:host`, `https:/host`), userinfo (`user@host`), and IDN/percent host
normalization are outside the modelled fragment. -/
def parseURL (s : String) : Option UrlParts :=
  let l := s.data
  let sch := l.takeWhile (fun c => c ≠ ':')
  let afterScheme := l.dropWhile (fun c => c ≠ ':')
  match sch with
  | [] => none
  | c :: _ =>
    if !c.isAlpha then none
    else if !sch.all isSchemeChar then none
    else match afterScheme with
      | ':' :: '/' :: '/' :: r2 =>
        let auth := r2.takeWhile (fun c => !isAuthorityEnd c)
        let path := r2.dropWhile (fun c => !isAuthorityEnd c)
        if auth.contains '@' then none
        else
          let host := auth.takeWhile (fun c => c ≠ ':')
          let portPart := auth.dropWhile (fun c => c ≠ ':')
          if host.isEmpty then none
          else match portPart with
            | [] => some ⟨⟨sch⟩, ⟨host.map Char.toLower⟩, "", ⟨path⟩⟩
            | ':' :: ds =>
              if ds.all Char.isDigit then
                some ⟨⟨sch⟩, ⟨host.map Char.toLower⟩, ⟨ds⟩, ⟨path⟩⟩
              else none
            | _ :: _ => none
      | _ => none

/-- A path-or-query-or-fragment remainder: empty, or starting with one of
`/`, `?`, `#`.  Every remainder produced by `parseURL`, and every suffix the
handler appends to a base, has this shape. -/
def pathShape (t : List Char) : Prop :=
  t = [] ∨ isAuthorityEnd (t.headD ' ') = true

/-- The module-level `allowedHosts` set. -/
def allowedHosts : List String :=
  ["api.vectorengine.ai", "generativelanguage.googleapis.com"]

/-- `endpoint.replace(/\/+$/, '')`: strip trailing slashes. -/
def stripTrailingSlashes (s : String) : String :=
  ⟨(s.data.reverse.dropWhile (fun c => c = '/')).reverse⟩

/-- `getUpstreamBase` from `src/api/generate.ts`; `Except.error` models the
thrown `Error` and carries its message. -/
def getUpstreamBase (endpoint : String) : Except String String :=
  match parseURL endpoint with
  | none => .error "Invalid proxyEndpoint"
  | some url =>
    if !allowedHosts.contains url.hostname then
      .error "proxyEndpoint host not allowed"
    else
      .ok (stripTrailingSlashes endpoint)

/-- One upstream `fetch` result: status, `content-type` header, raw body text,
and the outcome of `JSON.parse(rawBody)` (`none` when parsing throws). -/
structure UpstreamResp where
  status : Nat
  contentType : String
  rawBody : String
  parsed : Option JsVal

/-- The `lastJson` value the code stores: the parsed body, or `null` when
`JSON.parse` threw. -/
def UpstreamResp.json (r : UpstreamResp) : JsVal := r.parsed.getD .null

/-- `upstreamRes.ok`: status in the inclusive range 200–299. -/
def isOkStatus (s : Nat) : Bool := 200 ≤ s && s < 300

/-- The in-loop message
`lastJson?.error?.message || lastJson?.message || (lastRaw.trim() ? lastRaw.slice(0, 500) : '')`. -/
def loopMsg (r : UpstreamResp) : JsVal :=
  jsOr (optChain (optChain r.json "error") "message")
    (jsOr (optChain r.json "message")
      (if jsTrim r.rawBody ≠ "" then .str (strSlice r.rawBody 500) else .str ""))

/-- The post-loop / Gemini-branch message, which additionally falls back to
the literal `'Upstream error'`. -/
def finalMsg (r : UpstreamResp) : JsVal :=
  jsOr (optChain (optChain r.json "error") "message")
    (jsOr (optChain r.json "message")
      (jsOr (if jsTrim r.rawBody ≠ "" then .str (strSlice r.rawBody 500) else .str "")
        (.str "Upstream error")))

/-- `looksLikeModelNotFound`: 404, a model-related keyword, and one of the
known not-found phrasings, all tested on `String(upstreamMessage || '')`. -/
def looksLikeModelNotFound (r : UpstreamResp) : Bool :=
  let ms := JsVal.toJSStr (jsOr (loopMsg r) (.str ""))
  r.status == 404 &&
  (ciIncludes ms "model" || ciIncludes ms "模型") &&
  (ciIncludes ms "not found" || ciIncludes ms "does not exist" ||
   ciIncludes ms "不存在" || ciIncludes ms "未找到" || ciIncludes ms "未启用" ||
   ciIncludes ms "尚未上线" || ciIncludes ms "未开放" ||
   ciIncludes ms "No available channels")

/-- The loop continues to the next candidate exactly when the attempt was not
a success and looked like a model-not-found failure. -/
def contAttempt (r : UpstreamResp) : Bool :=
  !isOkStatus r.status && looksLikeModelNotFound r

/-- `lastJson?.choices?.[0]?.message?.content || ''`. -/
def extractOpenAIText (r : UpstreamResp) : JsVal :=
  jsOr (optChain (optChain (optIdx (optChain r.json "choices") 0) "message") "content")
    (.str "")

/-- The Gemini-branch text extraction: if
`json?.candidates?.[0]?.content?.parts` is an array, concatenate
`p?.text || ''` (string-coerced by `join('')`) over its elements, else `''`. -/
def geminiText (j : JsVal) : String :=
  match optChain (optChain (optIdx (optChain j "candidates") 0) "content") "parts" with
  | .arr ps => String.join (ps.map fun p => JsVal.toJSStr (jsOr (optChain p "text") (.str "")))
  | _ => ""

/-- `detail: lastJson ?? lastRaw.slice(0, 2000)` (`lastJson` is `null` both
when parsing threw and when the body was the JSON literal `null`). -/
def detailOf (r : UpstreamResp) : JsVal :=
  match r.json with
  | .null => .str (strSlice r.rawBody 2000)
  | v => v

/-- The failure response body sent to the caller. -/
def failureBody (r : UpstreamResp) (tried : List String) : JsVal :=
  .obj [("error", finalMsg r),
        ("upstreamStatus", .num r.status),
        ("upstreamContentType", .str r.contentType),
        ("detail", detailOf r),
        ("triedModels", .arr (tried.map .str))]

/-- The inbound request: HTTP method, the raw `authorization` header value
(any JavaScript value, as `req.headers.authorization` is untyped), and the
parsed request body. -/
structure Req where
  method : String
  authorization : JsVal
  body : JsVal

/-- `req.body || {}`. -/
def reqBody (req : Req) : JsVal := jsOr req.body (.obj [])

/-- The credential: the authorization header when it is a string (else `''`),
with a literal `'Bearer '` prefix stripped, trimmed. -/
def reqToken (req : Req) : String :=
  let token := match req.authorization with | .str s => s | _ => ""
  if jsStartsWith token "Bearer " then jsTrim ⟨token.data.drop 7⟩
  else jsTrim token

/-- `normalizeModel(body.model)`. -/
def reqModelN (req : Req) : String :=
  normalizeModelJs ((reqBody req).getF "model")

/-- `String(body.systemInstruction || '')`. -/
def reqSys (req : Req) : String :=
  JsVal.toJSStr (jsOr ((reqBody req).getF "systemInstruction") (.str ""))

/-- `String(body.userPrompt || '')`. -/
def reqPrompt (req : Req) : String :=
  JsVal.toJSStr (jsOr ((reqBody req).getF "userPrompt") (.str ""))

/-- `Boolean(body.enableThinking)`. -/
def reqThinking (req : Req) : Bool :=
  ((reqBody req).getF "enableThinking").truthy

/-- `String(body.proxyEndpoint || 'https://api.vectorengine.ai').trim()`. -/
def reqProxy (req : Req) : String :=
  jsTrim (JsVal.toJSStr (jsOr ((reqBody req).getF "proxyEndpoint")
    (.str "https://api.vectorengine.ai")))

/-- `proxyEndpoint || 'https://api.vectorengine.ai'`, the value handed to
`getUpstreamBase`. -/
def reqEndpointInput (req : Req) : String :=
  if reqProxy req ≠ "" then reqProxy req else "https://api.vectorengine.ai"

/-- One outbound `fetch`: target URL, the candidate model it concerns, the
JSON payload, and whether the credential was sent as `x-goog-api-key`
(`true`) or as `Authorization: Bearer` plus `X-API-Key` (`false`). -/
structure UpstreamCall where
  url : String
  model : String
  payload : JsVal
  googleKeyHeader : Bool

/-- The OpenAI-compatible chat payload for candidate model `m`. -/
def openAIPayload (m sys prompt : String) : JsVal :=
  .obj [("model", .str m),
        ("messages", .arr
          [.obj [("role", .str "system"), ("content", .str sys)],
           .obj [("role", .str "user"), ("content", .str prompt)]]),
        ("stream", .bool false),
        ("temperature", .num (7 / 10)),
        ("top_p", .num (19 / 20))]

/-- The Gemini `generateContent` payload. -/
def geminiPayload (model sys prompt : String) (enableThinking : Bool) : JsVal :=
  .obj [("systemInstruction", .obj [("parts", .arr [.obj [("text", .str sys)]])]),
        ("contents", .arr
          [.obj [("role", .str "user"), ("parts", .arr [.obj [("text", .str prompt)]])]]),
        ("generationConfig", .obj
          ([("temperature", .num (7 / 10)), ("topP", .num (19 / 20))] ++
           (if enableThinking && jsIncludes model "thinking" then
              [("thinkingConfig", .obj
                [("includeThoughts", .bool true), ("thinkingBudget", .num 16000)])]
            else [])))]

/-- The handler's observable outcome: the response status and JSON body sent
with `res.status(...).json(...)`, plus the trace of upstream calls issued. -/
structure HandlerOut where
  status : Nat
  body : JsVal
  calls : List UpstreamCall

/-- `{ error: 'Method not allowed' }`. -/
def methodNotAllowedBody : JsVal := .obj [("error", .str "Method not allowed")]

/-- `{ error: 'Missing required fields' }`. -/
def missingFieldsBody : JsVal := .obj [("error", .str "Missing required fields")]

/-- `{ error: 'Missing Proxy Token' }`. -/
def missingTokenBody : JsVal := .obj [("error", .str "Missing Proxy Token")]

/-- Result of the OpenAI-compatible fallback loop: success with the winning
candidate and its response, or failure carrying the last attempt. -/
inductive LoopRes where
  | success : String → UpstreamResp → LoopRes
  | failure : UpstreamResp → LoopRes

/-- The `for (const m of tryModels)` loop.  `oracle i` is the response of the
`i`-th `fetch` of the whole request; `last` carries the running
`lastStatus/lastRaw/lastContentType/lastJson` values (their initial values
are `500`, `''`, `''`, `null`). -/
def openAILoop (oracle : Nat → UpstreamResp) (url sys prompt : String) :
    List String → Nat → UpstreamResp → List UpstreamCall × LoopRes
  | [], _, last => ([], .failure last)
  | m :: rest, i, _ =>
    let r := oracle i
    let call : UpstreamCall := ⟨url, m, openAIPayload m sys prompt, false⟩
    if isOkStatus r.status then ([call], .success m r)
    else if looksLikeModelNotFound r then
      let next := openAILoop oracle url sys prompt rest (i + 1) r
      (call :: next.1, next.2)
    else ([call], .failure r)

/-- Mapping the loop result to the caller-facing response. -/
def openAIFinish (p : List UpstreamCall × LoopRes) (tried : List String) : HandlerOut :=
  match p.2 with
  | .success m r =>
    ⟨200, .obj [("text", extractOpenAIText r), ("usedModel", .str m)], p.1⟩
  | .failure r => ⟨r.status, failureBody r tried, p.1⟩

/-- The OpenAI-compatible branch at a fixed, already-built completions URL
(`new URL(...)` throwing is the `parseURL = none` case, caught as a 500). -/
def openAIRunAt (req : Req) (oracle : Nat → UpstreamResp) (urlStr : String) :
    HandlerOut :=
  match parseURL urlStr with
  | none => ⟨500, .obj [("error", .str "Invalid URL")], []⟩
  | some _ =>
    openAIFinish
      (openAILoop oracle urlStr (reqSys req) (reqPrompt req)
        (reqModelN req :: getModelFallbacks (reqModelN req)) 0
        ⟨500, "", "", none⟩)
      (reqModelN req :: getModelFallbacks (reqModelN req))

/-- The OpenAI-compatible branch of the handler (base-path normalization to
`/v1`, then the fallback loop over `[model, ...getModelFallbacks(model)]`). -/
def openAIRun (req : Req) (oracle : Nat → UpstreamResp) (endpoint : String) :
    HandlerOut :=
  openAIRunAt req oracle
    ((if jsEndsWith endpoint "/v1beta" then strDropRight endpoint 7 ++ "/v1"
      else if !jsEndsWith endpoint "/v1" then endpoint ++ "/v1"
      else endpoint) ++ "/chat/completions")

/-- The single Gemini upstream call record: the credential goes in
`x-goog-api-key` exactly when the resolved hostname is the canonical Gemini
host. -/
def geminiCall (req : Req) (urlStr : String) (u : UrlParts) : UpstreamCall :=
  ⟨urlStr, reqModelN req,
   geminiPayload (reqModelN req) (reqSys req) (reqPrompt req) (reqThinking req),
   u.hostname = "generativelanguage.googleapis.com"⟩

/-- The Gemini-compatible branch at a fixed, already-built
`generateContent` URL. -/
def geminiRunAt (req : Req) (oracle : Nat → UpstreamResp) (urlStr : String) :
    HandlerOut :=
  match parseURL urlStr with
  | none => ⟨500, .obj [("error", .str "Invalid URL")], []⟩
  | some u =>
    if isOkStatus (oracle 0).status then
      ⟨200,
       .obj [("text", .str (geminiText (oracle 0).json)),
             ("usedModel", .str (reqModelN req))],
       [geminiCall req urlStr u]⟩
    else
      ⟨(oracle 0).status,
       failureBody (oracle 0) (reqModelN req :: getModelFallbacks (reqModelN req)),
       [geminiCall req urlStr u]⟩

/-- The Gemini-compatible branch of the handler: a single upstream call
against `{base}/models/{model}:generateContent`. -/
def geminiRun (req : Req) (oracle : Nat → UpstreamResp) (endpoint : String) :
    HandlerOut :=
  geminiRunAt req oracle
    ((if jsIncludes endpoint "/v1beta" then endpoint else endpoint ++ "/v1beta")
      ++ "/models/" ++ reqModelN req ++ ":generateContent")

/-- The exported `handler` of `src/api/generate.ts`: validation, endpoint
resolution, provider-family dispatch, and response mapping.  `oracle i` is
the result of the `i`-th outbound `fetch` of this request. -/
def handler (req : Req) (oracle : Nat → UpstreamResp) : HandlerOut :=
  if req.method ≠ "POST" then ⟨405, methodNotAllowedBody, []⟩
  else if reqModelN req = "" ∨ reqSys req = "" ∨ reqPrompt req = "" then
    ⟨400, missingFieldsBody, []⟩
  else if reqToken req = "" then ⟨401, missingTokenBody, []⟩
  else
    match getUpstreamBase (reqEndpointInput req) with
    | .error msg => ⟨500, .obj [("error", .str msg)], []⟩
    | .ok endpoint =>
      if jsStartsWith (reqModelN req) "gpt" || jsStartsWith (reqModelN req) "o1" then
        openAIRun req oracle endpoint
      else
        geminiRun req oracle endpoint

/-- Modelled from the spec (§4.4): the fallback family table, first matching
rule wins, case-sensitive prefix/substring tests, before the post-processing
step that removes the original model and deduplicates. -/
def specFallbackTable (m : String) : List String :=
  if jsStartsWith m "gpt-4.1" then ["gpt-4o-mini", "gpt-4o", "gpt-4.1-mini"]
  else if jsStartsWith m "gpt-4o" then ["gpt-4o-mini", "gpt-4o"]
  else if jsStartsWith m "gpt-4" then ["gpt-4o-mini", "gpt-4o"]
  else if jsStartsWith m "o1" then ["gpt-4o-mini", "gpt-4o"]
  else if jsIncludes m "gemini-2.0-flash" then ["gemini-1.5-flash", "gemini-1.5-pro"]
  else if jsIncludes m "gemini" then
    ["gemini-1.5-flash", "gemini-1.5-pro", "gemini-2.0-flash-exp"]
  else []

/-- Modelled from the spec (§4.8): the `detail` field is the parsed
structured body when the raw body is parseable, else the raw body truncated
to at most 2000 characters. -/
def specDetail (r : UpstreamResp) : JsVal :=
  match r.parsed with
  | some v => v
  | none => .str (strSlice r.rawBody 2000)

/-- The well-formed Gemini success body built from a list of part texts, used
to state the text-concatenation property. -/
def mkCandidates (texts : List String) : JsVal :=
  .obj [("candidates", .arr
    [.obj [("content", .obj
      [("parts", .arr (texts.map fun t => .obj [("text", .str t)]))])]])]

/-! ### Concrete requests and upstream responses used as test vectors -/

/-- A successful OpenAI-style upstream response with content `"hello"`. -/
def okChatResp : UpstreamResp :=
  ⟨200, "application/json", "\x7b\"choices\":[\x7b\"message\":\x7b\"content\":\"hello\"\x7d\x7d]\x7d",
   some (.obj [("choices", .arr [.obj [("message", .obj [("content", .str "hello")])]])])⟩

/-- A 404 model-not-found upstream response. -/
def notFoundResp : UpstreamResp :=
  ⟨404, "application/json", "\x7b\"error\":\x7b\"message\":\"model not found\"\x7d\x7d",
   some (.obj [("error", .obj [("message", .str "model not found")])])⟩

/-- An upstream failure whose raw body is the JSON literal `null`. -/
def nullBodyResp : UpstreamResp :=
  ⟨502, "application/json", "null", some .null⟩

/-- A POST request whose `systemInstruction` is a single space: non-empty as
a string, but empty after trimming. -/
def blankSysReq : Req :=
  ⟨"POST", .str "Bearer tok",
   .obj [("model", .str "gpt-4o"), ("systemInstruction", .str " "),
         ("userPrompt", .str "hi")]⟩

/-- A POST request with an empty `userPrompt`. -/
def emptyPromptReq : Req :=
  ⟨"POST", .str "Bearer tok",
   .obj [("model", .str "gpt-4o"), ("systemInstruction", .str "sys"),
         ("userPrompt", .str "")]⟩

/-- A valid OpenAI-family POST request (spec §8 example: model `"4o-mini"`). -/
def openAIReq : Req :=
  ⟨"POST", .str "Bearer t",
   .obj [("model", .str "4o-mini"), ("systemInstruction", .str "You are helpful"),
         ("userPrompt", .str "hi")]⟩

/-- A valid Gemini-family POST request (spec §8 example: `"gemini-1.5-pro"`). -/
def geminiReq : Req :=
  ⟨"POST", .str "tok",
   .obj [("model", .str "gemini-1.5-pro"), ("systemInstruction", .str "s"),
         ("userPrompt", .str "p")]⟩

/-- A POST request aimed at a non-allow-listed proxy endpoint. -/
def evilEndpointReq : Req :=
  ⟨"POST", .str "Bearer tok",
   .obj [("model", .str "gpt-4o"), ("systemInstruction", .str "sys"),
         ("userPrompt", .str "hi"),
         ("proxyEndpoint", .str "https://evil.example.com")]⟩

/-- A GET request that is also missing every field and the credential. -/
def getReq : Req := ⟨"GET", .undefined, .undefined⟩

/-- A POST request missing both a required field and the credential. -/
def noFieldNoTokenReq : Req :=
  ⟨"POST", .undefined, .obj [("model", .str "gpt-4o")]⟩

/-- A Gemini success response whose body carries two parts `"a"` and `"b"`
(spec §8 stub). -/
def geminiOkResp : UpstreamResp :=
  ⟨200, "application/json",
   "\x7b\"candidates\":[\x7b\"content\":\x7b\"parts\":[\x7b\"text\":\"a\"\x7d,\x7b\"text\":\"b\"\x7d]\x7d\x7d]\x7d",
   some (mkCandidates ["a", "b"])⟩

/-- An oracle whose first upstream answer is a model-not-found 404 and whose
later answers succeed, exercising one fallback step. -/
def fbOracle : Nat → UpstreamResp :=
  fun i => if i = 0 then notFoundResp else okChatResp

/-! ### Facts about `jsTrim` -/

lemma dropWhile_eq_self_of_forall {p : Char → Bool} {l : List Char}
    (h : ∀ c ∈ l, p c = false) : l.dropWhile p = l := by
  cases l with
  | nil => rfl
  | cons a t => rw [List.dropWhile_cons, h a (List.mem_cons_self a t)]; simp

lemma trimList_eq_self {l : List Char} (h : ∀ c ∈ l, isJsWs c = false) :
    trimList l = l := by
  unfold trimList
  rw [dropWhile_eq_self_of_forall h,
      dropWhile_eq_self_of_forall (fun c hc => h c (List.mem_reverse.mp hc)),
      List.reverse_reverse]

lemma trimList_prefix (l : List Char) : trimList l <+: l.dropWhile isJsWs := by
  unfold trimList
  conv_rhs => rw [← List.reverse_reverse (l.dropWhile isJsWs)]
  exact List.reverse_prefix.mpr (List.dropWhile_suffix _)

lemma dropWhile_of_trim_eq {l : List Char} (h : trimList l = l) :
    l.dropWhile isJsWs = l := by
  have hp := trimList_prefix l
  rw [h] at hp
  exact (List.dropWhile_suffix _).eq_of_length
    (le_antisymm ((List.dropWhile_suffix _).length_le) hp.length_le)

lemma rev_dropWhile_of_trim_eq {l : List Char} (h : trimList l = l) :
    l.reverse.dropWhile isJsWs = l.reverse := by
  have h1 := dropWhile_of_trim_eq h
  have h2 : ((l.dropWhile isJsWs).reverse.dropWhile isJsWs).reverse = l := h
  rw [h1] at h2
  calc l.reverse.dropWhile isJsWs
      = ((l.reverse.dropWhile isJsWs).reverse).reverse := (List.reverse_reverse _).symm
    _ = l.reverse := by rw [h2]

lemma dropWhile_self_of_prefix {p : Char → Bool} {X Y : List Char}
    (h : X.dropWhile p = X) (hp : Y <+: X) : Y.dropWhile p = Y := by
  rcases Y with _ | ⟨a, t⟩
  · rfl
  obtain ⟨r, hr⟩ := hp
  rw [List.cons_append] at hr
  rw [← hr, List.dropWhile_cons] at h
  by_cases hpa : p a = true
  · rw [if_pos hpa] at h
    have := (List.dropWhile_suffix (l := t ++ r) p).length_le
    rw [h] at this
    simp at this
  · rw [List.dropWhile_cons, if_neg hpa]

lemma trimList_gpt_append {m l : List Char} (h : trimList m = m) (hs : l <:+ m) :
    trimList ('g' :: 'p' :: 't' :: '-' :: l) = 'g' :: 'p' :: 't' :: '-' :: l := by
  have hback : l.reverse.dropWhile isJsWs = l.reverse :=
    dropWhile_self_of_prefix (rev_dropWhile_of_trim_eq h) (List.reverse_prefix.mpr hs)
  unfold trimList
  have hfront : ('g' :: 'p' :: 't' :: '-' :: l).dropWhile isJsWs
      = 'g' :: 'p' :: 't' :: '-' :: l := by
    rw [List.dropWhile_cons, if_neg (by decide)]
  rw [hfront]
  have hrev : ('g' :: 'p' :: 't' :: '-' :: l).reverse = l.reverse ++ ['-', 't', 'p', 'g'] := by
    simp
  rw [hrev, List.dropWhile_append, hback]
  rcases l with _ | ⟨a, t⟩
  · simp
    decide
  · simp

lemma dropWhile_trimList (l : List Char) :
    (trimList l).dropWhile isJsWs = trimList l := by
  rcases h : trimList l with _ | ⟨a, t⟩
  · rfl
  · have hpre := trimList_prefix l
    rw [h] at hpre
    obtain ⟨r, hr⟩ := hpre
    rw [List.cons_append] at hr
    have hid : List.dropWhile isJsWs (a :: (t ++ r)) = a :: (t ++ r) := by
      rw [hr]
      exact List.dropWhile_idempotent _ _
    rw [List.dropWhile_cons] at hid
    by_cases hpa : isJsWs a = true
    · rw [if_pos hpa] at hid
      have hlen := (List.dropWhile_suffix (p := isJsWs) (l := t ++ r)).length_le
      rw [hid] at hlen
      simp at hlen
    · rw [List.dropWhile_cons, if_neg hpa]

lemma trimList_idem (l : List Char) : trimList (trimList l) = trimList l := by
  show (((trimList l).dropWhile isJsWs).reverse.dropWhile isJsWs).reverse = trimList l
  rw [dropWhile_trimList]
  have h2 : (trimList l).reverse = ((l.dropWhile isJsWs).reverse).dropWhile isJsWs := by
    unfold trimList; rw [List.reverse_reverse]
  rw [h2, List.dropWhile_idempotent, ← h2, List.reverse_reverse]

lemma jsTrim_idem (s : String) : jsTrim (jsTrim s) = jsTrim s := by
  show (⟨trimList (trimList s.data)⟩ : String) = ⟨trimList s.data⟩
  rw [trimList_idem]

lemma jsTrim_data {s : String} (h : jsTrim s = s) : trimList s.data = s.data := by
  have := congrArg String.data h
  exact this

/-! ### Facts about the model-name patterns and `normalizeModel` -/

lemma dnum_chars : ∀ l : List Char,
    (dnumAfterDigit l = true → ∀ c ∈ l, (c.isDigit || c = '.') = true) ∧
    (dnumGroup l = true → ∀ c ∈ l, (c.isDigit || c = '.') = true) := by
  intro l
  induction l with
  | nil =>
    refine ⟨fun _ c hc => absurd hc (List.not_mem_nil c), fun h => ?_⟩
    simp [dnumGroup] at h
  | cons a t ih =>
    constructor
    · intro h c hc
      rw [dnumAfterDigit] at h
      by_cases ha : a = '.'
      · rw [if_pos ha] at h
        rcases List.mem_cons.mp hc with rfl | hct
        · simp [ha]
        · exact ih.2 h c hct
      · rw [if_neg ha] at h
        have h1 := Bool.and_eq_true_iff.mp h
        rcases List.mem_cons.mp hc with rfl | hct
        · simp [h1.1]
        · exact ih.1 h1.2 c hct
    · intro h c hc
      rw [dnumGroup] at h
      have h1 := Bool.and_eq_true_iff.mp h
      rcases List.mem_cons.mp hc with rfl | hct
      · simp [h1.1]
      · exact ih.1 h1.2 c hct

lemma dottedNumeric_chars {l : List Char} (h : dottedNumeric l = true) :
    ∀ c ∈ l, (c.isDigit || c = '.') = true := by
  cases l with
  | nil => simp [dottedNumeric] at h
  | cons a t =>
    rw [dottedNumeric] at h
    have h1 := Bool.and_eq_true_iff.mp h
    intro c hc
    rcases List.mem_cons.mp hc with rfl | hct
    · simp [h1.1]
    · exact (dnum_chars t).1 h1.2 c hct

lemma dnum_head_digit {l : List Char} (h : dottedNumeric l = true) :
    ∃ c rest, l = c :: rest ∧ c.isDigit = true := by
  cases l with
  | nil => simp [dottedNumeric] at h
  | cons a t =>
    rw [dottedNumeric] at h
    exact ⟨a, t, rfl, (Bool.and_eq_true_iff.mp h).1⟩

lemma digit_dot_not_ws {c : Char} (h : (c.isDigit || c = '.') = true) :
    isJsWs c = false := by
  cases hws : isJsWs c
  · rfl
  · exfalso
    simp only [isJsWs, Bool.or_eq_true, decide_eq_true_eq] at hws
    rcases hws with ((((((((h1 | h1) | h1) | h1) | h1) | h1) | h1) | h1) | h1) | h1 <;>
      subst h1 <;> exact absurd h (by decide)

lemma jsStartsWith_false_of_head {s p : String} {c d : Char} {r1 r2 : List Char}
    (hs : s.data = c :: r1) (hp : p.data = d :: r2) (hne : c ≠ d) :
    jsStartsWith s p = false := by
  unfold jsStartsWith
  rw [hs, hp]
  cases hip : List.isPrefixOf (d :: r2) (c :: r1)
  · rfl
  · exfalso
    obtain ⟨t, ht⟩ := List.isPrefixOf_iff_prefix.mp hip
    rw [List.cons_append] at ht
    exact hne (by injection ht with h1 _; exact h1.symm)

lemma jsTrim_of_dnum {m : String} (h : dottedNumeric m.data = true) : jsTrim m = m := by
  show (⟨trimList m.data⟩ : String) = m
  rw [trimList_eq_self (fun c hc => digit_dot_not_ws (dottedNumeric_chars h c hc))]

/-- C6: for every input string matching the dotted-numeric pattern
`^\d+(\.\d+)*$` (embedded as `dottedNumeric`), `normalizeModel` returns
`"gpt-"` concatenated with the input. -/
theorem normalizeModel_dotted (m : String) (h : dottedNumeric m.data = true) :
    normalizeModel m = "gpt-" ++ m := by
  obtain ⟨c, rest, hd, hdig⟩ := dnum_head_digit h
  have htrim : jsTrim m = m := jsTrim_of_dnum h
  have hne : m ≠ "" := by
    intro h0
    rw [h0] at hd
    exact absurd hd (by simp)
  have hcg : c ≠ 'g' := fun hc => by rw [hc] at hdig; exact absurd hdig (by decide)
  have hco : c ≠ 'o' := fun hc => by rw [hc] at hdig; exact absurd hdig (by decide)
  have h1 : jsStartsWith m "gpt-" = false := jsStartsWith_false_of_head hd rfl hcg
  have h2 : jsStartsWith m "o1" = false := jsStartsWith_false_of_head hd rfl hco
  have h3 : jsStartsWith m "gpt" = false := jsStartsWith_false_of_head hd rfl hcg
  simp only [normalizeModel]
  rw [htrim, if_neg hne, if_neg (by rw [h1, h2]; simp), if_neg (by rw [h3]; simp),
    if_pos h]

/-- Witness: the dotted-numeric input `"4.1"` normalizes to `"gpt-4.1"`. -/
theorem normalizeModel_dotted_witness :
    dottedNumeric ("4.1" : String).data = true ∧ normalizeModel "4.1" = "gpt-4.1" :=
  ⟨by decide, by rw [normalizeModel_dotted "4.1" (by decide)]; decide⟩

lemma startsWith_gpt_append (x : String) : jsStartsWith ("gpt-" ++ x) "gpt-" = true := by
  unfold jsStartsWith
  rw [ List.isPrefixOf_iff_prefix, String.data_append]
  exact List.prefix_append _ _

lemma jsTrim_gpt_append {m : String} (h : jsTrim m = m) {l : List Char}
    (hs : l <:+ m.data) :
    jsTrim ("gpt-" ++ (⟨l⟩ : String)) = "gpt-" ++ (⟨l⟩ : String) := by
  have hdata : ("gpt-" ++ (⟨l⟩ : String)).data = 'g' :: 'p' :: 't' :: '-' :: l := by
    rw [String.data_append]
    rfl
  show (⟨trimList ("gpt-" ++ (⟨l⟩ : String)).data⟩ : String) = "gpt-" ++ (⟨l⟩ : String)
  rw [hdata, trimList_gpt_append (jsTrim_data h) hs, ← hdata]

/-- Counterexample to C7 as stated: `"gpt-4o "` starts with `"gpt-"` but is
not returned unchanged — `normalizeModel` first trims it. -/
theorem normalizeModel_not_fixed_on_untrimmed :
    jsStartsWith "gpt-4o " "gpt-" = true ∧
    normalizeModel "gpt-4o " = "gpt-4o" ∧ "gpt-4o" ≠ "gpt-4o " := by
  refine ⟨by decide, by decide, by decide⟩

/-- C7 (amended): normalization is idempotent on every string; and every
trimmed string that starts with `"gpt-"` or `"o1"` is returned unchanged. -/
theorem normalizeModel_idem_and_fixed :
    (∀ s : String, normalizeModel (normalizeModel s) = normalizeModel s) ∧
    (∀ s : String, jsTrim s = s →
      (jsStartsWith s "gpt-" || jsStartsWith s "o1") = true →
      normalizeModel s = s) := by
  have fix : ∀ s : String, jsTrim s = s →
      (jsStartsWith s "gpt-" || jsStartsWith s "o1") = true → normalizeModel s = s := by
    intro s htrim hpre
    have hne : s ≠ "" := by
      intro h0
      rw [h0] at hpre
      exact absurd hpre (by decide)
    simp only [normalizeModel]
    rw [htrim, if_neg hne, if_pos hpre]
  refine ⟨?_, fix⟩
  intro s
  have hmm : jsTrim (jsTrim s) = jsTrim s := jsTrim_idem s
  by_cases h0 : jsTrim s = ""
  · have hs : normalizeModel s = "" := by
      simp only [normalizeModel]
      rw [if_pos h0, h0]
    rw [hs]
    rfl
  by_cases h1 : (jsStartsWith (jsTrim s) "gpt-" || jsStartsWith (jsTrim s) "o1") = true
  · have hs : normalizeModel s = jsTrim s := by
      simp only [normalizeModel]
      rw [if_neg h0, if_pos h1]
    rw [hs]
    exact fix (jsTrim s) hmm h1
  by_cases h2 : jsStartsWith (jsTrim s) "gpt" = true
  · have hs : normalizeModel s = "gpt-" ++ ⟨(jsTrim s).data.drop 3⟩ := by
      simp only [normalizeModel]
      rw [if_neg h0, if_neg h1, if_pos h2]
    rw [hs]
    refine fix _ (jsTrim_gpt_append hmm (List.drop_suffix 3 _)) ?_
    rw [startsWith_gpt_append]
    simp
  by_cases h3 : dottedNumeric (jsTrim s).data = true
  · have hs : normalizeModel s = "gpt-" ++ jsTrim s := by
      simp only [normalizeModel]
      rw [if_neg h0, if_neg h1, if_neg h2, if_pos h3]
    rw [hs]
    refine fix _ (jsTrim_gpt_append hmm (List.suffix_refl _)) ?_
    rw [startsWith_gpt_append]
    simp
  by_cases h4 : fourOPat (jsTrim s).data = true
  · have hs : normalizeModel s = "gpt-" ++ jsTrim s := by
      simp only [normalizeModel]
      rw [if_neg h0, if_neg h1, if_neg h2, if_neg h3, if_pos h4]
    rw [hs]
    refine fix _ (jsTrim_gpt_append hmm (List.suffix_refl _)) ?_
    rw [startsWith_gpt_append]
    simp
  · have hs : normalizeModel s = jsTrim s := by
      simp only [normalizeModel]
      rw [if_neg h0, if_neg h1, if_neg h2, if_neg h3, if_neg h4]
    rw [hs]
    simp only [normalizeModel]
    rw [hmm, if_neg h0, if_neg h1, if_neg h2, if_neg h3, if_neg h4]

/-- Witness: `"gpt-4o"` is trimmed and `gpt-`-prefixed, and is returned
unchanged; idempotence applied at `"  4o "`. -/
theorem normalizeModel_idem_witness :
    normalizeModel "gpt-4o" = "gpt-4o" ∧
    normalizeModel (normalizeModel "  4o ") = normalizeModel "  4o " :=
  ⟨normalizeModel_idem_and_fixed.2 "gpt-4o" (by decide) (by decide),
   normalizeModel_idem_and_fixed.1 "  4o "⟩

/-! ### Facts about `getModelFallbacks` -/

lemma contains_eq_false_of_not_mem {x : String} {seen : List String} (h : x ∉ seen) :
    seen.contains x = false := by
  cases hc : seen.contains x
  · rfl
  · exact absurd (List.elem_iff.mp hc) h

lemma dedupFirst_of_nodup :
    ∀ (l seen : List String), l.Nodup → (∀ x ∈ l, x ∉ seen) → dedupFirst seen l = l := by
  intro l
  induction l with
  | nil => intro seen _ _; rfl
  | cons a t ih =>
    intro seen hnd hni
    unfold dedupFirst
    rw [contains_eq_false_of_not_mem (hni a (List.mem_cons_self a t))]
    simp only [Bool.false_eq_true, if_false]
    refine congrArg (a :: ·) (ih (a :: seen) hnd.of_cons ?_)
    intro x hx
    rw [List.mem_cons]
    rintro (rfl | hxs)
    · exact (List.nodup_cons.mp hnd).1 hx
    · exact hni x (List.mem_cons_of_mem a hx) hxs

lemma table_nodup (m : String) : (specFallbackTable m).Nodup := by
  unfold specFallbackTable
  split_ifs <;> decide

lemma table_ne_empty (m : String) : ∀ x ∈ specFallbackTable m, x ≠ "" := by
  unfold specFallbackTable
  split_ifs <;> decide

/-- C4: the fallback chain never contains the trimmed input model, has no
duplicates, and equals the spec's §4.4 family table with the input model
removed, preserving order (empty when no rule matches). -/
theorem getModelFallbacks_spec (model : String) :
    jsTrim model ∉ getModelFallbacks model ∧
    (getModelFallbacks model).Nodup ∧
    getModelFallbacks model
      = (specFallbackTable (jsTrim model)).filter (fun x => x ≠ jsTrim model) := by
  have hEq : getModelFallbacks model
      = if jsTrim model = "" then []
        else dedupFirst []
          ((specFallbackTable (jsTrim model)).filter
            (fun x => x ≠ "" && x ≠ jsTrim model)) := rfl
  by_cases h0 : jsTrim model = ""
  · rw [hEq, if_pos h0, h0]
    exact ⟨by simp, List.nodup_nil, by decide⟩
  · have hno := table_ne_empty (jsTrim model)
    have hnd := table_nodup (jsTrim model)
    have hfeq : (specFallbackTable (jsTrim model)).filter
          (fun x => x ≠ "" && x ≠ jsTrim model)
        = (specFallbackTable (jsTrim model)).filter (fun x => x ≠ jsTrim model) :=
      List.filter_congr (fun x hx => by simp [hno x hx])
    have hfnd : ((specFallbackTable (jsTrim model)).filter
        (fun x => x ≠ jsTrim model)).Nodup := hnd.filter _
    rw [hEq, if_neg h0, hfeq,
      dedupFirst_of_nodup _ [] hfnd (fun x _ => List.not_mem_nil x)]
    refine ⟨?_, hfnd, rfl⟩
    intro hmem
    have := (List.mem_filter.mp hmem).2
    simp at this

/-! ### Endpoint validation: C10 and C3 -/

/-- C10: the allow-list constrains only the hostname — every endpoint that
parses with an allow-listed hostname passes validation, whatever its scheme,
port, or path, and the returned base is the endpoint with only trailing
slashes stripped. -/
theorem getUpstreamBase_hostname_only (e : String) (u : UrlParts)
    (hp : parseURL e = some u) (hh : u.hostname ∈ allowedHosts) :
    getUpstreamBase e = .ok (stripTrailingSlashes e) := by
  unfold getUpstreamBase
  rw [hp]
  have hc : allowedHosts.contains u.hostname = true := List.elem_iff.mpr hh
  simp [hc]
  exact hh

/-- Witness: the non-default scheme, explicit port, and path of
`"http://api.vectorengine.ai:8080/x"` are all accepted. -/
theorem getUpstreamBase_hostname_only_witness :
    getUpstreamBase "http://api.vectorengine.ai:8080/x"
      = .ok "http://api.vectorengine.ai:8080/x" := by
  rw [getUpstreamBase_hostname_only "http://api.vectorengine.ai:8080/x"
    ⟨"http", "api.vectorengine.ai", "8080", "/x"⟩ (by decide) (by decide)]
  rfl

lemma parseURL_empty : parseURL "" = none := rfl

lemma reqEndpointInput_of_parse {req : Req} {u : UrlParts}
    (hpe : parseURL (reqProxy req) = some u) :
    reqEndpointInput req = reqProxy req := by
  unfold reqEndpointInput
  rw [if_pos]
  intro h0
  rw [h0, parseURL_empty] at hpe
  exact Option.noConfusion hpe

/-- C3: a request whose `proxyEndpoint` parses to a non-allow-listed host is
answered 500 with the host-not-allowed message, and no upstream call is
made. -/
theorem handler_rejects_disallowed_host (req : Req) (oracle : Nat → UpstreamResp)
    (u : UrlParts) (hm : req.method = "POST")
    (h1 : reqModelN req ≠ "") (h2 : reqSys req ≠ "") (h3 : reqPrompt req ≠ "")
    (h4 : reqToken req ≠ "")
    (hpe : parseURL (reqProxy req) = some u) (hnh : u.hostname ∉ allowedHosts) :
    handler req oracle
      = ⟨500, .obj [("error", .str "proxyEndpoint host not allowed")], []⟩ := by
  have hub : getUpstreamBase (reqEndpointInput req)
      = .error "proxyEndpoint host not allowed" := by
    rw [reqEndpointInput_of_parse hpe]
    unfold getUpstreamBase
    rw [hpe]
    simp [contains_eq_false_of_not_mem hnh]
    exact hnh
  unfold handler
  rw [if_neg (not_not_intro hm),
    if_neg (by rintro (h | h | h) <;> [exact h1 h; exact h2 h; exact h3 h]),
    if_neg h4, hub]

/-- Witness for C3: `proxyEndpoint = "https://evil.example.com"` is rejected
with a 500 host-not-allowed response before any upstream call. -/
theorem handler_rejects_disallowed_host_witness :
    handler evilEndpointReq (fun _ => okChatResp)
      = ⟨500, .obj [("error", .str "proxyEndpoint host not allowed")], []⟩ :=
  handler_rejects_disallowed_host evilEndpointReq (fun _ => okChatResp)
    ⟨"https", "evil.example.com", "", ""⟩ rfl
    (by decide) (by decide) (by decide) (by decide) (by decide) (by decide)

/-! ### Validation ordering: C9 and C1 -/

/-- C9: validation is ordered — a non-POST request is always answered 405; a
POST with a missing required field is answered 400 even when the credential
is also missing; and a 401 can only arise for a POST whose three required
fields are all non-empty. -/
theorem handler_validation_order :
    (∀ (req : Req) (oracle : Nat → UpstreamResp), req.method ≠ "POST" →
      handler req oracle = ⟨405, methodNotAllowedBody, []⟩) ∧
    (∀ (req : Req) (oracle : Nat → UpstreamResp), req.method = "POST" →
      (reqModelN req = "" ∨ reqSys req = "" ∨ reqPrompt req = "") →
      handler req oracle = ⟨400, missingFieldsBody, []⟩) ∧
    (∀ (req : Req) (oracle : Nat → UpstreamResp),
      (handler req oracle).status = 401 →
      req.method = "POST" ∧ reqModelN req ≠ "" ∧ reqSys req ≠ "" ∧
        reqPrompt req ≠ "") := by
  refine ⟨?_, ?_, ?_⟩
  · intro req oracle h
    unfold handler
    rw [if_pos h]
  · intro req oracle hm h
    unfold handler
    rw [if_neg (not_not_intro hm), if_pos h]
  · intro req oracle h
    by_cases hm : req.method = "POST"
    · by_cases hf : reqModelN req = "" ∨ reqSys req = "" ∨ reqPrompt req = ""
      · exfalso
        unfold handler at h
        rw [if_neg (not_not_intro hm), if_pos hf] at h
        exact absurd h (by decide)
      · push_neg at hf
        exact ⟨hm, hf.1, hf.2.1, hf.2.2⟩
    · exfalso
      unfold handler at h
      rw [if_pos hm] at h
      exact absurd h (by decide)

/-- Witness for C9: a GET with nothing else is 405; a POST missing both a
field and the credential is 400, not 401. -/
theorem handler_validation_order_witness :
    handler getReq (fun _ => okChatResp) = ⟨405, methodNotAllowedBody, []⟩ ∧
    handler noFieldNoTokenReq (fun _ => okChatResp)
      = ⟨400, missingFieldsBody, []⟩ :=
  ⟨handler_validation_order.1 getReq (fun _ => okChatResp) (by decide),
   handler_validation_order.2.1 noFieldNoTokenReq (fun _ => okChatResp) rfl
     (Or.inr (Or.inr rfl))⟩

lemma getUpstreamBase_error_msg {e msg : String}
    (h : getUpstreamBase e = .error msg) :
    msg = "Invalid proxyEndpoint" ∨ msg = "proxyEndpoint host not allowed" := by
  unfold getUpstreamBase at h
  split at h
  · exact Or.inl (by injection h with h1; exact h1.symm)
  · split at h
    · exact Or.inr (by injection h with h1; exact h1.symm)
    · exact Except.noConfusion h

lemma openAIRunAt_body_ne_missing (req : Req) (oracle : Nat → UpstreamResp)
    (urlStr : String) :
    (openAIRunAt req oracle urlStr).body ≠ missingFieldsBody := by
  intro h
  unfold openAIRunAt openAIFinish at h
  split at h
  · simp [missingFieldsBody] at h
  · split at h
    · simp [missingFieldsBody] at h
    · simp [missingFieldsBody, failureBody] at h

lemma openAIRun_body_ne_missing (req : Req) (oracle : Nat → UpstreamResp)
    (endpoint : String) :
    (openAIRun req oracle endpoint).body ≠ missingFieldsBody :=
  openAIRunAt_body_ne_missing req oracle _

lemma geminiRunAt_body_ne_missing (req : Req) (oracle : Nat → UpstreamResp)
    (urlStr : String) :
    (geminiRunAt req oracle urlStr).body ≠ missingFieldsBody := by
  intro h
  unfold geminiRunAt at h
  split at h
  · simp [missingFieldsBody] at h
  · split at h
    · simp [missingFieldsBody] at h
    · simp [missingFieldsBody, failureBody] at h

lemma geminiRun_body_ne_missing (req : Req) (oracle : Nat → UpstreamResp)
    (endpoint : String) :
    (geminiRun req oracle endpoint).body ≠ missingFieldsBody :=
  geminiRunAt_body_ne_missing req oracle _

/-- Counterexample to C1 as stated: a POST whose `systemInstruction` is a
single space — empty after trimming — is not rejected: the handler makes an
upstream call and returns 200. -/
theorem handler_accepts_blank_system_instruction :
    jsTrim (reqSys blankSysReq) = "" ∧
    (handler blankSysReq (fun _ => okChatResp)).status = 200 ∧
    (handler blankSysReq (fun _ => okChatResp)).calls.length = 1 := by
  refine ⟨by decide, by decide, by decide⟩

/-- C1 (amended): for a POST request the missing-fields 400 (with no
upstream call) is produced exactly when the normalized model is empty or
`systemInstruction` or `userPrompt` coerce to the empty string (the latter
two are not trimmed first); otherwise the missing-fields response never
occurs. -/
theorem handler_missing_fields (req : Req) (oracle : Nat → UpstreamResp)
    (hm : req.method = "POST") :
    ((reqModelN req = "" ∨ reqSys req = "" ∨ reqPrompt req = "") →
      handler req oracle = ⟨400, missingFieldsBody, []⟩) ∧
    (reqModelN req ≠ "" → reqSys req ≠ "" → reqPrompt req ≠ "" →
      (handler req oracle).body ≠ missingFieldsBody) := by
  constructor
  · intro h
    unfold handler
    rw [if_neg (not_not_intro hm), if_pos h]
  · intro h1 h2 h3
    unfold handler
    rw [if_neg (not_not_intro hm),
      if_neg (by rintro (h | h | h) <;> [exact h1 h; exact h2 h; exact h3 h])]
    by_cases h4 : reqToken req = ""
    · rw [if_pos h4]
      intro h
      simp [missingTokenBody, missingFieldsBody] at h
    · rw [if_neg h4]
      cases hub : getUpstreamBase (reqEndpointInput req) with
      | error msg =>
        intro h
        simp only [missingFieldsBody] at h
        rcases getUpstreamBase_error_msg hub with rfl | rfl <;> simp at h
      | ok endpoint =>
        show (if (jsStartsWith (reqModelN req) "gpt"
              || jsStartsWith (reqModelN req) "o1") = true then
            openAIRun req oracle endpoint
          else geminiRun req oracle endpoint).body ≠ missingFieldsBody
        by_cases hoai : (jsStartsWith (reqModelN req) "gpt"
            || jsStartsWith (reqModelN req) "o1") = true
        · rw [if_pos hoai]
          exact openAIRun_body_ne_missing req oracle endpoint
        · rw [if_neg hoai]
          exact geminiRun_body_ne_missing req oracle endpoint

/-- Witness for C1 (amended): an empty `userPrompt` yields the 400 response
with no upstream call; the valid OpenAI request is never rejected for
missing fields. -/
theorem handler_missing_fields_witness :
    handler emptyPromptReq (fun _ => okChatResp) = ⟨400, missingFieldsBody, []⟩ ∧
    (handler openAIReq (fun _ => okChatResp)).body ≠ missingFieldsBody :=
  ⟨(handler_missing_fields emptyPromptReq (fun _ => okChatResp) rfl).1
      (Or.inr (Or.inr (by decide))),
   (handler_missing_fields openAIReq (fun _ => okChatResp) rfl).2
      (by decide) (by decide) (by decide)⟩

/-! ### URL construction facts -/

lemma dropWhile_eq_self_of_headD {p : Char → Bool} {l : List Char}
    (h : l = [] ∨ p (l.headD ' ') = false) : l.dropWhile p = l := by
  rcases l with _ | ⟨a, t⟩
  · rfl
  · rcases h with h | h
    · exact absurd h (by simp)
    · simp only [List.headD_cons] at h
      rw [List.dropWhile_cons, h]
      simp

lemma takeWhile_eq_nil_of_headD {p : Char → Bool} {l : List Char}
    (h : l = [] ∨ p (l.headD ' ') = false) : l.takeWhile p = [] := by
  rcases l with _ | ⟨a, t⟩
  · rfl
  · rcases h with h | h
    · exact absurd h (by simp)
    · simp only [List.headD_cons] at h
      rw [List.takeWhile_cons, if_neg (by simp [h])]

lemma takeWhile_append_of_forall {p : Char → Bool} {A B : List Char}
    (hA : ∀ c ∈ A, p c = true) (hB : B = [] ∨ p (B.headD ' ') = false) :
    (A ++ B).takeWhile p = A := by
  rw [List.takeWhile_append, if_pos (by rw [List.takeWhile_eq_self_iff.mpr hA]),
    takeWhile_eq_nil_of_headD hB, List.append_nil]

lemma dropWhile_append_of_forall {p : Char → Bool} {A B : List Char}
    (hA : ∀ c ∈ A, p c = true) (hB : B = [] ∨ p (B.headD ' ') = false) :
    (A ++ B).dropWhile p = B := by
  rw [List.dropWhile_append,
    if_pos (by simp [List.dropWhile_eq_nil_iff.mpr hA]),
    dropWhile_eq_self_of_headD hB]

lemma parseURL_build {sch auth t : List Char} {c : Char} {cs : List Char}
    (hsch : sch = c :: cs) (hAlpha : c.isAlpha = true)
    (hall : sch.all isSchemeChar = true)
    (hcolon : ∀ x ∈ sch, decide (x ≠ ':') = true)
    (hauth : ∀ x ∈ auth, isAuthorityEnd x = false)
    (hat : auth.contains '@' = false)
    (hhost : (auth.takeWhile (fun x => x ≠ ':')).isEmpty = false)
    (ht : pathShape t) :
    parseURL ⟨sch ++ ':' :: '/' :: '/' :: (auth ++ t)⟩
      = match auth.dropWhile (fun x => x ≠ ':') with
        | [] => some ⟨⟨sch⟩, ⟨(auth.takeWhile (fun x => x ≠ ':')).map Char.toLower⟩, "", ⟨t⟩⟩
        | ':' :: ds =>
          if ds.all Char.isDigit then
            some ⟨⟨sch⟩, ⟨(auth.takeWhile (fun x => x ≠ ':')).map Char.toLower⟩, ⟨ds⟩, ⟨t⟩⟩
          else none
        | _ :: _ => none := by
  have hshape : t = [] ∨ (fun x => !isAuthorityEnd x) (t.headD ' ') = false := by
    rcases ht with h | h
    · exact Or.inl h
    · exact Or.inr (by show (!isAuthorityEnd (t.headD ' ')) = false; rw [h]; rfl)
  have h1 : (sch ++ ':' :: '/' :: '/' :: (auth ++ t)).takeWhile
      (fun x => decide (x ≠ ':')) = sch :=
    takeWhile_append_of_forall hcolon (Or.inr rfl)
  have h2 : (sch ++ ':' :: '/' :: '/' :: (auth ++ t)).dropWhile
      (fun x => decide (x ≠ ':')) = ':' :: '/' :: '/' :: (auth ++ t) :=
    dropWhile_append_of_forall hcolon (Or.inr rfl)
  have h3 : (auth ++ t).takeWhile (fun x => !isAuthorityEnd x) = auth :=
    takeWhile_append_of_forall (fun x hx => by simp [hauth x hx]) hshape
  have h4 : (auth ++ t).dropWhile (fun x => !isAuthorityEnd x) = t :=
    dropWhile_append_of_forall (fun x hx => by simp [hauth x hx]) hshape
  have hat2 : ¬('@' ∈ auth) := by simpa using hat
  have hne : auth.takeWhile (fun x => decide (x ≠ ':')) ≠ [] := by
    intro hnil
    rw [hnil] at hhost
    simp at hhost
  have hhost2 : ¬(∀ (hl : 0 < auth.length), auth.get ⟨0, hl⟩ = ':') := by
    intro hcol
    rcases hauth0 : auth with _ | ⟨a0, arest⟩
    · rw [hauth0] at hne
      exact hne rfl
    · have := hcol (by rw [hauth0]; simp)
      rw [hauth0] at hne
      rw [List.takeWhile_cons] at hne
      rw [if_neg (by simp_all)] at hne
      exact hne rfl
  simp only [parseURL, h1, h2]
  subst hsch
  simp [hAlpha, hall, h3, h4]
  rw [if_neg hat2]
  rw [if_neg (show ¬(∀ (hl : 0 < auth.length), auth[0] = ':') from
    fun hcol => hhost2 fun hl => hcol hl)]

lemma parseURL_shape {s : String} {u : UrlParts} (h : parseURL s = some u) :
    ∃ sch auth path : List Char,
      s.data = sch ++ ':' :: '/' :: '/' :: (auth ++ path) ∧
      (∀ x ∈ auth, isAuthorityEnd x = false) ∧ auth ≠ [] ∧
      pathShape path ∧
      u.hostname.data.length ≤ auth.length ∧
      ∀ t : List Char, pathShape t →
        parseURL ⟨sch ++ ':' :: '/' :: '/' :: (auth ++ t)⟩
          = some ⟨u.scheme, u.hostname, u.port, ⟨t⟩⟩ := by
  simp only [parseURL] at h
  split at h
  · exact absurd h (by simp)
  rename_i c rest heq
  by_cases hAlpha : (!c.isAlpha) = true
  · rw [if_pos hAlpha] at h
    exact absurd h (by simp)
  rw [if_neg hAlpha] at h
  by_cases hall : (!(List.takeWhile (fun x => decide (x ≠ ':')) s.data).all isSchemeChar) = true
  · rw [if_pos hall] at h
    exact absurd h (by simp)
  rw [if_neg hall] at h
  split at h
  swap
  · exact absurd h (by simp)
  rename_i r2 heq2
  by_cases hat : (List.takeWhile (fun x => !isAuthorityEnd x) r2).contains '@' = true
  · rw [if_pos hat] at h
    exact absurd h (by simp)
  rw [if_neg hat] at h
  by_cases hhostE : (List.takeWhile (fun x => decide (x ≠ ':'))
      (List.takeWhile (fun x => !isAuthorityEnd x) r2)).isEmpty = true
  · rw [if_pos hhostE] at h
    exact absurd h (by simp)
  rw [if_neg hhostE] at h
  rw [heq] at h
  have hsd : s.data = (c :: rest) ++ ':' :: '/' :: '/' :: r2 := by
    conv_lhs => rw [← List.takeWhile_append_dropWhile (p := fun x => decide (x ≠ ':'))
      (l := s.data)]
    rw [heq, heq2]
  have hr2 : r2 = List.takeWhile (fun x => !isAuthorityEnd x) r2
      ++ List.dropWhile (fun x => !isAuthorityEnd x) r2 :=
    (List.takeWhile_append_dropWhile _ _).symm
  have hauthm : ∀ x ∈ List.takeWhile (fun x => !isAuthorityEnd x) r2,
      isAuthorityEnd x = false := by
    intro x hx
    have := List.mem_takeWhile_imp hx
    simpa using this
  have hauthne : List.takeWhile (fun x => !isAuthorityEnd x) r2 ≠ [] := by
    intro h0
    rw [h0] at hhostE
    simp at hhostE
  have hps : pathShape (List.dropWhile (fun x => !isAuthorityEnd x) r2) := by
    rcases hp : List.dropWhile (fun x => !isAuthorityEnd x) r2 with _ | ⟨p0, prest⟩
    · exact Or.inl rfl
    · right
      have hne : List.dropWhile (fun x => !isAuthorityEnd x) r2 ≠ [] := by
        rw [hp]
        simp
      have hh := List.head_dropWhile_not (fun x => !isAuthorityEnd x) r2 hne
      have hv : (List.dropWhile (fun x => !isAuthorityEnd x) r2).head hne = p0 := by
        simp [hp]
      rw [hv] at hh
      simpa using hh
  have hcolon : ∀ x ∈ c :: rest, decide (x ≠ ':') = true := by
    intro x hx
    rw [← heq] at hx
    exact List.mem_takeWhile_imp (p := fun y => decide (y ≠ ':')) hx
  have hAlpha2 : c.isAlpha = true := by simpa using hAlpha
  have hall2 : (c :: rest).all isSchemeChar = true := by
    rw [← heq]
    simpa using hall
  have hat2 : (List.takeWhile (fun x => !isAuthorityEnd x) r2).contains '@' = false := by
    simpa using hat
  have hhostE2 : ((List.takeWhile (fun x => !isAuthorityEnd x) r2).takeWhile
      (fun x => decide (x ≠ ':'))).isEmpty = false := by
    simpa using hhostE
  have hbuild := fun (t : List Char) (ht : pathShape t) =>
    @parseURL_build (c :: rest)
      (List.takeWhile (fun x => !isAuthorityEnd x) r2) t c rest
      rfl hAlpha2 hall2 hcolon hauthm hat2 hhostE2 ht
  have hlen : (List.map Char.toLower
      ((List.takeWhile (fun x => !isAuthorityEnd x) r2).takeWhile
        (fun x => decide (x ≠ ':')))).length
      ≤ (List.takeWhile (fun x => !isAuthorityEnd x) r2).length := by
    rw [List.length_map]
    exact ( List.takeWhile_prefix _).length_le
  split at h
  · -- no port
    rename_i heq3
    have hu : u = ⟨⟨c :: rest⟩,
        ⟨((List.takeWhile (fun x => !isAuthorityEnd x) r2).takeWhile
          (fun x => decide (x ≠ ':'))).map Char.toLower⟩, "",
        ⟨List.dropWhile (fun x => !isAuthorityEnd x) r2⟩⟩ := by
      injection h with h1
      exact h1.symm
    subst hu
    refine ⟨c :: rest, List.takeWhile (fun x => !isAuthorityEnd x) r2,
      List.dropWhile (fun x => !isAuthorityEnd x) r2,
      by rw [hsd]; rw [hr2] ; simp, hauthm, hauthne, hps, hlen, ?_⟩
    intro t ht
    refine (hbuild t ht).trans ?_
    simp only [heq3]
  · -- explicit port
    rename_i ds heq3
    by_cases hdig : ds.all Char.isDigit = true
    · rw [if_pos hdig] at h
      have hu : u = ⟨⟨c :: rest⟩,
          ⟨((List.takeWhile (fun x => !isAuthorityEnd x) r2).takeWhile
            (fun x => decide (x ≠ ':'))).map Char.toLower⟩, ⟨ds⟩,
          ⟨List.dropWhile (fun x => !isAuthorityEnd x) r2⟩⟩ := by
        injection h with h1
        exact h1.symm
      subst hu
      refine ⟨c :: rest, List.takeWhile (fun x => !isAuthorityEnd x) r2,
        List.dropWhile (fun x => !isAuthorityEnd x) r2,
        by rw [hsd]; rw [hr2] ; simp, hauthm, hauthne, hps, hlen, ?_⟩
      intro t ht
      refine (hbuild t ht).trans ?_
      simp only [heq3, hdig, if_true]
    · rw [if_neg hdig] at h
      exact absurd h (by simp)
  · exact absurd h (by simp)

lemma stripSlash_append {pre path : List Char} (_hpre : pre ≠ [])
    (hlast : decide ((pre.reverse.headD ' ') = '/') = false) :
    ((pre ++ path).reverse.dropWhile (fun c => decide (c = '/'))).reverse
      = pre ++ ((path.reverse.dropWhile (fun c => decide (c = '/'))).reverse) := by
  rw [List.reverse_append, List.dropWhile_append]
  by_cases hB : (path.reverse.dropWhile (fun c => decide (c = '/'))).isEmpty = true
  · rw [if_pos hB, dropWhile_eq_self_of_headD (Or.inr hlast), List.reverse_reverse,
      List.isEmpty_iff.mp hB]
    simp
  · rw [if_neg hB, List.reverse_append, List.reverse_reverse]

lemma getUpstreamBase_ok {e E : String} (h : getUpstreamBase e = .ok E) :
    E = stripTrailingSlashes e ∧
    ∃ u, parseURL e = some u ∧ u.hostname ∈ allowedHosts := by
  unfold getUpstreamBase at h
  split at h
  · exact Except.noConfusion h
  rename_i u hp
  split at h
  · exact Except.noConfusion h
  rename_i hc
  refine ⟨by injection h with h1; exact h1.symm, u, hp, ?_⟩
  have hcc : allowedHosts.contains u.hostname = true := by
    cases hcb : allowedHosts.contains u.hostname
    · exact absurd (by rw [hcb]; rfl) hc
    · rfl
  exact List.elem_iff.mp hcc

lemma stripped_v1beta {E : String} {sch auth t0 : List Char}
    (hEdata : E.data = (sch ++ ':' :: '/' :: '/' :: auth) ++ t0)
    (hshape : pathShape t0)
    (hauthm : ∀ x ∈ auth, isAuthorityEnd x = false)
    (hlen19 : 19 ≤ auth.length)
    (hends : jsEndsWith E "/v1beta" = true) :
    ∃ t1, t0 = t1 ++ "/v1beta".data := by
  have hsuf1 : "/v1beta".data <:+ E.data := List.isSuffixOf_iff_suffix.mp hends
  have hsuf2 : t0 <:+ E.data := by
    rw [hEdata]
    exact List.suffix_append _ _
  have hsl : ("/v1beta".data).length = 7 := by decide
  by_cases hlen : 7 ≤ t0.length
  · rcases List.suffix_or_suffix_of_suffix hsuf1 hsuf2 with hss | hss
    · obtain ⟨t1, ht1⟩ := hss
      exact ⟨t1, ht1.symm⟩
    · have h7 := hss.length_le
      have heq : t0 = "/v1beta".data := hss.eq_of_length (by omega)
      exact ⟨[], by rw [heq]; rfl⟩
  · exfalso
    push_neg at hlen
    rcases List.suffix_or_suffix_of_suffix hsuf1 hsuf2 with hss | hss
    · have h1 := hss.length_le
      omega
    · obtain ⟨w, hw⟩ := hss
      rcases hshape with h0 | h0
      · -- t0 = []: the pre part itself ends with "/v1beta"
        subst h0
        rw [List.append_nil] at hEdata
        have hsufpre : "/v1beta".data <:+ sch ++ ':' :: '/' :: '/' :: auth := by
          rw [← hEdata]
          exact hsuf1
        have hsufauth : auth <:+ sch ++ ':' :: '/' :: '/' :: auth := by
          refine ⟨sch ++ [':', '/', '/'], ?_⟩
          simp
        rcases List.suffix_or_suffix_of_suffix hsufpre hsufauth with hs2 | hs2
        · have hmem : '/' ∈ auth := hs2.mem (by decide)
          have := hauthm '/' hmem
          simp [isAuthorityEnd] at this
        · have := hs2.length_le
          omega
      · -- t0 = c :: rest with an authority-end head: only '/' occurs in the
        -- suffix source, and only at position 0
        rcases ht0 : t0 with _ | ⟨c, rest⟩
        · rw [ht0] at h0
          exact absurd h0 (by decide)
        · rw [ht0] at hw h0 hlen
          simp only [List.headD_cons] at h0
          have hcmem : c ∈ "/v1beta".data := by
            rw [← hw]
            exact List.mem_append_right w (List.mem_cons_self c rest)
          have hc : c = '/' := by
            simp only [isAuthorityEnd, Bool.or_eq_true, decide_eq_true_eq] at h0
            rcases h0 with (h0 | h0) | h0
            · exact h0
            · rw [h0] at hcmem
              exact absurd hcmem (by decide)
            · rw [h0] at hcmem
              exact absurd hcmem (by decide)
          subst hc
          rcases w with _ | ⟨w0, wrest⟩
          · have hw1 : '/' :: rest = "/v1beta".data := by simpa using hw
            have hr6 : rest.length = 6 := by
              have := congrArg List.length hw1
              simp at this
              omega
            rw [List.length_cons, hr6] at hlen
            omega
          · rw [List.cons_append] at hw
            have hw2 : wrest ++ '/' :: rest = ['v', '1', 'b', 'e', 't', 'a'] := by
              have hinj : w0 :: (wrest ++ '/' :: rest) = '/' :: ['v', '1', 'b', 'e', 't', 'a'] := hw
              injection hinj
            have hsl2 : '/' ∈ (['v', '1', 'b', 'e', 't', 'a'] : List Char) := by
              rw [← hw2]
              exact List.mem_append_right wrest (List.mem_cons_self _ _)
            exact absurd hsl2 (by decide)

lemma endpoint_decomp {e E : String} (hub : getUpstreamBase e = .ok E) :
    ∃ (pre t0 : List Char) (u : UrlParts),
      u.hostname ∈ allowedHosts ∧
      E.data = pre ++ t0 ∧
      pathShape t0 ∧
      (∀ x ∈ pre, True) ∧
      (∀ t : List Char, pathShape t →
        parseURL ⟨pre ++ t⟩ = some ⟨u.scheme, u.hostname, u.port, ⟨t⟩⟩) ∧
      (jsEndsWith E "/v1beta" = true → ∃ t1, t0 = t1 ++ "/v1beta".data) := by
  obtain ⟨hE, u, hp, hh⟩ := getUpstreamBase_ok hub
  obtain ⟨sch, auth, path, hsd, hauthm, hauthne, hps, hlenh, hre⟩ := parseURL_shape hp
  have hlen19 : 19 ≤ auth.length := by
    have h19 : 19 ≤ u.hostname.data.length := by
      rcases (by simpa [allowedHosts] using hh :
        u.hostname = "api.vectorengine.ai" ∨
        u.hostname = "generativelanguage.googleapis.com") with h | h <;>
        rw [h] <;> decide
    omega
  have hEdata : E.data
      = (sch ++ ':' :: '/' :: '/' :: auth)
        ++ ((path.reverse.dropWhile (fun c => decide (c = '/'))).reverse) := by
    have hdata : E.data = ((e.data.reverse.dropWhile (fun c => decide (c = '/'))).reverse) := by
      rw [hE]
      rfl
    have hsd2 : e.data = (sch ++ ':' :: '/' :: '/' :: auth) ++ path := by
      rw [hsd]
      simp
    have hpre_ne : sch ++ ':' :: '/' :: '/' :: auth ≠ [] := by simp
    have hlast : decide (((sch ++ ':' :: '/' :: '/' :: auth).reverse.headD ' ') = '/')
        = false := by
      obtain ⟨a0, arest, har⟩ : ∃ a0 arest, auth.reverse = a0 :: arest := by
        rcases hra : auth.reverse with _ | ⟨a0, arest⟩
        · exact absurd (by simpa using congrArg List.reverse hra) hauthne
        · exact ⟨a0, arest, rfl⟩
      have ha0 : a0 ∈ auth := by
        rw [← List.mem_reverse, har]
        simp
      have hae := hauthm a0 ha0
      have hne0 : a0 ≠ '/' := by
        intro h0
        rw [h0] at hae
        simp [isAuthorityEnd] at hae
      rw [List.reverse_append]
      simp [har, hne0]
    rw [hdata, hsd2, stripSlash_append hpre_ne hlast]
  have hshape_t0 : pathShape ((path.reverse.dropWhile (fun c => decide (c = '/'))).reverse) := by
    rcases hstr : (path.reverse.dropWhile (fun c => decide (c = '/'))).reverse with _ | ⟨q0, qrest⟩
    · exact Or.inl rfl
    · right
      have hpref : (path.reverse.dropWhile (fun c => decide (c = '/'))).reverse <+: path := by
        conv_rhs => rw [← List.reverse_reverse path]
        exact List.reverse_prefix.mpr (List.dropWhile_suffix _)
      rw [hstr] at hpref
      obtain ⟨r, hr⟩ := hpref
      rcases hps with h0 | h0
      · rw [h0] at hr
        simp at hr
      · rw [← hr] at h0
        simpa using h0
  refine ⟨sch ++ ':' :: '/' :: '/' :: auth,
    (path.reverse.dropWhile (fun c => decide (c = '/'))).reverse, u, hh, hEdata,
    hshape_t0, fun _ _ => trivial, ?_, ?_⟩
  · intro t ht
    have hassoc : (sch ++ ':' :: '/' :: '/' :: auth) ++ t
        = sch ++ ':' :: '/' :: '/' :: (auth ++ t) := by simp
    rw [hassoc]
    exact hre t ht
  · intro hends
    exact stripped_v1beta hEdata hshape_t0 hauthm hlen19 hends

lemma pathShape_append {a b : List Char} (h : pathShape a)
    (hb : isAuthorityEnd (b.headD ' ') = true) : pathShape (a ++ b) := by
  rcases a with _ | ⟨c, r⟩
  · right
    simpa using hb
  · rcases h with h | h
    · exact absurd h (by simp)
    · right
      simpa using h

lemma pathShape_of_append_left {a b : List Char} (h : pathShape (a ++ b)) :
    pathShape a := by
  rcases a with _ | ⟨c, r⟩
  · exact Or.inl rfl
  · rcases h with h | h
    · simp at h
    · right
      simpa using h

/-! ### The OpenAI fallback loop -/

lemma openAILoop_prefix (oracle : Nat → UpstreamResp) (url sys prompt : String) :
    ∀ (ms : List String) (i : Nat) (last : UpstreamResp),
      ∃ n, ((openAILoop oracle url sys prompt ms i last).1.map
        (fun c => c.model)) = ms.take n := by
  intro ms
  induction ms with
  | nil => exact fun i last => ⟨0, rfl⟩
  | cons m rest ih =>
    intro i last
    unfold openAILoop
    by_cases hok : isOkStatus (oracle i).status = true
    · rw [if_pos hok]
      exact ⟨1, rfl⟩
    · rw [if_neg hok]
      by_cases hnf : looksLikeModelNotFound (oracle i) = true
      · rw [if_pos hnf]
        obtain ⟨n, hn⟩ := ih (i + 1) (oracle i)
        refine ⟨n + 1, ?_⟩
        simp only [List.map_cons, List.take_succ_cons]
        rw [← hn]
      · rw [if_neg hnf]
        exact ⟨1, rfl⟩

lemma openAILoop_spec (oracle : Nat → UpstreamResp) (url sys prompt : String) :
    ∀ (ms : List String) (i : Nat) (last : UpstreamResp) (j : Nat),
      j < ms.length →
      (∀ k, k < j → contAttempt (oracle (i + k)) = true) →
      (isOkStatus (oracle (i + j)).status = true →
        openAILoop oracle url sys prompt ms i last
          = ((ms.take (j + 1)).map
              (fun m => ⟨url, m, openAIPayload m sys prompt, false⟩),
             .success (ms.getD j "") (oracle (i + j)))) ∧
      (isOkStatus (oracle (i + j)).status = false →
        looksLikeModelNotFound (oracle (i + j)) = false →
        openAILoop oracle url sys prompt ms i last
          = ((ms.take (j + 1)).map
              (fun m => ⟨url, m, openAIPayload m sys prompt, false⟩),
             .failure (oracle (i + j)))) := by
  intro ms
  induction ms with
  | nil => intro i last j hj; exact absurd hj (by simp)
  | cons m rest ih =>
    intro i last j hj hprev
    rcases j with _ | j'
    · constructor
      · intro hok
        unfold openAILoop
        rw [if_pos (by simpa using hok)]
        simp
      · intro hok hnf
        unfold openAILoop
        rw [if_neg (by simp [Nat.add_zero] at hok; simp [hok]),
          if_neg (by simpa using hnf)]
        simp
    · have hcont0 : contAttempt (oracle i) = true := by
        have := hprev 0 (Nat.succ_pos j')
        simpa using this
      have hok0 : isOkStatus (oracle i).status = false := by
        have := hcont0
        unfold contAttempt at this
        rcases Bool.and_eq_true_iff.mp this with ⟨h1, _⟩
        simpa using h1
      have hnf0 : looksLikeModelNotFound (oracle i) = true :=
        (Bool.and_eq_true_iff.mp (by unfold contAttempt at hcont0; exact hcont0)).2
      have hih := ih (i + 1) (oracle i) j' (by simpa using hj)
        (fun k hk => by
          have := hprev (k + 1) (by omega)
          rw [show i + 1 + k = i + (k + 1) by omega]
          exact this)
      constructor
      · intro hok
        unfold openAILoop
        rw [if_neg (by simp [hok0]), if_pos hnf0]
        rw [(hih.1 (by rw [show i + 1 + j' = i + (j' + 1) by omega]; exact hok))]
        rw [show i + 1 + j' = i + (j' + 1) by omega]
        simp
      · intro hok hnf
        unfold openAILoop
        rw [if_neg (by simp [hok0]), if_pos hnf0]
        rw [(hih.2 (by rw [show i + 1 + j' = i + (j' + 1) by omega]; exact hok)
          (by rw [show i + 1 + j' = i + (j' + 1) by omega]; exact hnf))]
        rw [show i + 1 + j' = i + (j' + 1) by omega]
        simp

lemma openAILoop_exhaust (oracle : Nat → UpstreamResp) (url sys prompt : String) :
    ∀ (ms : List String) (i : Nat) (last : UpstreamResp), ms ≠ [] →
      (∀ k, k < ms.length → contAttempt (oracle (i + k)) = true) →
      openAILoop oracle url sys prompt ms i last
        = (ms.map (fun m => ⟨url, m, openAIPayload m sys prompt, false⟩),
           .failure (oracle (i + ms.length - 1))) := by
  intro ms
  induction ms with
  | nil => intro i last hne; exact absurd rfl hne
  | cons m rest ih =>
    intro i last _ hall
    have hcont0 : contAttempt (oracle i) = true := by
      have := hall 0 (by simp)
      simpa using this
    have hok0 : isOkStatus (oracle i).status = false := by
      rcases Bool.and_eq_true_iff.mp (by unfold contAttempt at hcont0; exact hcont0)
        with ⟨h1, _⟩
      simpa using h1
    have hnf0 : looksLikeModelNotFound (oracle i) = true :=
      (Bool.and_eq_true_iff.mp (by unfold contAttempt at hcont0; exact hcont0)).2
    unfold openAILoop
    rw [if_neg (by simp [hok0]), if_pos hnf0]
    rcases hr : rest with _ | ⟨m2, rest2⟩
    · subst hr
      unfold openAILoop
      simp
    · rw [← hr]
      rw [ih (i + 1) (oracle i) (by rw [hr]; simp)
        (fun k hk => by
          have := hall (k + 1) (by simpa using Nat.succ_lt_succ hk)
          rw [show i + 1 + k = i + (k + 1) by omega]
          exact this)]
      have hlen : i + 1 + rest.length - 1 = i + (m :: rest).length - 1 := by
        simp
      rw [hlen]
      simp

/-! ### Reduction of the handler under the validation hypotheses -/

lemma handler_run (req : Req) (oracle : Nat → UpstreamResp)
    (hm : req.method = "POST") (h1 : reqModelN req ≠ "") (h2 : reqSys req ≠ "")
    (h3 : reqPrompt req ≠ "") (h4 : reqToken req ≠ "") {E : String}
    (hub : getUpstreamBase (reqEndpointInput req) = .ok E) :
    handler req oracle
      = if (jsStartsWith (reqModelN req) "gpt"
            || jsStartsWith (reqModelN req) "o1") = true
        then openAIRun req oracle E
        else geminiRun req oracle E := by
  unfold handler
  rw [if_neg (not_not_intro hm),
    if_neg (by rintro (h | h | h) <;> [exact h1 h; exact h2 h; exact h3 h]),
    if_neg h4, hub]

lemma openAIRunAt_eq (req : Req) (oracle : Nat → UpstreamResp) (urlStr : String)
    {u2 : UrlParts} (h : parseURL urlStr = some u2) :
    openAIRunAt req oracle urlStr
      = openAIFinish
          (openAILoop oracle urlStr (reqSys req) (reqPrompt req)
            (reqModelN req :: getModelFallbacks (reqModelN req)) 0
            ⟨500, "", "", none⟩)
          (reqModelN req :: getModelFallbacks (reqModelN req)) := by
  unfold openAIRunAt
  rw [h]

lemma openAIRun_finish (req : Req) (oracle : Nat → UpstreamResp) {e E : String}
    (hub : getUpstreamBase e = .ok E) :
    ∃ url : String,
      openAIRun req oracle E
        = openAIFinish
            (openAILoop oracle url (reqSys req) (reqPrompt req)
              (reqModelN req :: getModelFallbacks (reqModelN req)) 0
              ⟨500, "", "", none⟩)
            (reqModelN req :: getModelFallbacks (reqModelN req)) := by
  obtain ⟨pre, t0, u, hh, hEdata, hsh, _, hre, hv1⟩ := endpoint_decomp hub
  have hvccShape : isAuthorityEnd (("/v1/chat/completions".data).headD ' ') = true := by
    decide
  have hccShape : isAuthorityEnd (("/chat/completions".data).headD ' ') = true := by
    decide
  unfold openAIRun
  by_cases hb1 : jsEndsWith E "/v1beta" = true
  · rw [if_pos hb1]
    obtain ⟨t1, ht1⟩ := hv1 hb1
    have hEdata2 : E.data = (pre ++ t1) ++ "/v1beta".data := by
      rw [hEdata, ht1]
      simp
    have hlen7 : E.data.length - 7 = (pre ++ t1).length := by
      rw [hEdata2]
      simp
      omega
    have hdrop : strDropRight E 7 = ⟨pre ++ t1⟩ := by
      unfold strDropRight
      rw [hlen7, hEdata2, List.take_left]
    have hurl : (strDropRight E 7 ++ "/v1") ++ "/chat/completions"
        = ⟨pre ++ (t1 ++ "/v1/chat/completions".data)⟩ := by
      apply String.ext
      rw [String.data_append, String.data_append, hdrop]
      show (pre ++ t1) ++ "/v1".data ++ "/chat/completions".data = _
      simp only [List.append_assoc]
      rfl
    have hshape : pathShape (t1 ++ "/v1/chat/completions".data) :=
      pathShape_append (pathShape_of_append_left (ht1 ▸ hsh)) hvccShape
    rw [hurl]
    exact ⟨_, openAIRunAt_eq req oracle _ (hre _ hshape)⟩
  · rw [if_neg hb1]
    by_cases hb2 : (!jsEndsWith E "/v1") = true
    · rw [if_pos hb2]
      have hurl : (E ++ "/v1") ++ "/chat/completions"
          = ⟨pre ++ (t0 ++ "/v1/chat/completions".data)⟩ := by
        apply String.ext
        rw [String.data_append, String.data_append, hEdata]
        simp only [List.append_assoc]
        rfl
      have hshape : pathShape (t0 ++ "/v1/chat/completions".data) :=
        pathShape_append hsh hvccShape
      rw [hurl]
      exact ⟨_, openAIRunAt_eq req oracle _ (hre _ hshape)⟩
    · rw [if_neg hb2]
      have hurl : E ++ "/chat/completions"
          = ⟨pre ++ (t0 ++ "/chat/completions".data)⟩ := by
        apply String.ext
        rw [String.data_append, hEdata]
        simp only [List.append_assoc]
      have hshape : pathShape (t0 ++ "/chat/completions".data) :=
        pathShape_append hsh hccShape
      rw [hurl]
      exact ⟨_, openAIRunAt_eq req oracle _ (hre _ hshape)⟩

lemma geminiRunAt_eq (req : Req) (oracle : Nat → UpstreamResp) (urlStr : String)
    {u2 : UrlParts} (h : parseURL urlStr = some u2) :
    geminiRunAt req oracle urlStr
      = if isOkStatus (oracle 0).status then
          ⟨200, .obj [("text", .str (geminiText (oracle 0).json)),
                      ("usedModel", .str (reqModelN req))],
           [geminiCall req urlStr u2]⟩
        else
          ⟨(oracle 0).status,
           failureBody (oracle 0) (reqModelN req :: getModelFallbacks (reqModelN req)),
           [geminiCall req urlStr u2]⟩ := by
  unfold geminiRunAt
  rw [h]

lemma geminiRun_reduce (req : Req) (oracle : Nat → UpstreamResp) {e E : String}
    (hub : getUpstreamBase e = .ok E) :
    ∃ url : String,
      geminiRun req oracle E = geminiRunAt req oracle url ∧
      ∃ u2, parseURL url = some u2 := by
  obtain ⟨pre, t0, u, hh, hEdata, hsh, _, hre, _⟩ := endpoint_decomp hub
  refine ⟨(if jsIncludes E "/v1beta" then E else E ++ "/v1beta")
    ++ "/models/" ++ reqModelN req ++ ":generateContent", rfl, ?_⟩
  by_cases hb : jsIncludes E "/v1beta" = true
  · rw [if_pos hb]
    have hurl : E ++ "/models/" ++ reqModelN req ++ ":generateContent"
        = ⟨pre ++ (t0 ++ ("/models/".data ++ ((reqModelN req).data
            ++ ":generateContent".data)))⟩ := by
      apply String.ext
      rw [String.data_append, String.data_append, String.data_append, hEdata]
      simp only [List.append_assoc]
    have hshape : pathShape (t0 ++ ("/models/".data ++ ((reqModelN req).data
        ++ ":generateContent".data))) :=
      pathShape_append hsh rfl
    rw [hurl]
    exact ⟨_, hre _ hshape⟩
  · rw [if_neg hb]
    have hurl : E ++ "/v1beta" ++ "/models/" ++ reqModelN req ++ ":generateContent"
        = ⟨pre ++ (t0 ++ ("/v1beta/models/".data ++ ((reqModelN req).data
            ++ ":generateContent".data)))⟩ := by
      apply String.ext
      rw [String.data_append, String.data_append, String.data_append,
        String.data_append, hEdata]
      simp only [List.append_assoc]
      rfl
    have hshape : pathShape (t0 ++ ("/v1beta/models/".data ++ ((reqModelN req).data
        ++ ":generateContent".data))) :=
      pathShape_append hsh rfl
    rw [hurl]
    exact ⟨_, hre _ hshape⟩

/-! ### C2: order and stopping behaviour of the OpenAI fallback loop -/

lemma openAIFinish_calls (p : List UpstreamCall × LoopRes) (tried : List String) :
    (openAIFinish p tried).calls = p.1 := by
  rcases p with ⟨c, r⟩
  cases r <;> rfl

/-- **C2.** For every validated OpenAI-family request (normalized model
starting with `gpt` or `o1`), the models attempted are always an
order-preserving take-prefix of `[model, ...fallbacks]`; if every attempt
continues the loop (404 model-not-found), all candidates are tried in order
and the last failure is surfaced; and for any index `j` whose predecessors
all continued: a success at `j` yields 200 with `usedModel` the `j`-th
candidate and exactly `j+1` calls, while a failure at `j` that does not look
like model-not-found stops immediately, surfacing that failure after exactly
`j+1` calls. -/
theorem openai_attempt_order (req : Req) (oracle : Nat → UpstreamResp)
    (hm : req.method = "POST") (h1 : reqModelN req ≠ "") (h2 : reqSys req ≠ "")
    (h3 : reqPrompt req ≠ "") (h4 : reqToken req ≠ "") {E : String}
    (hub : getUpstreamBase (reqEndpointInput req) = .ok E)
    (hfam : (jsStartsWith (reqModelN req) "gpt"
             || jsStartsWith (reqModelN req) "o1") = true) :
    ∃ url : String,
      (∃ n, (handler req oracle).calls.map (fun c => c.model)
          = (reqModelN req :: getModelFallbacks (reqModelN req)).take n) ∧
      ((∀ k, k < (reqModelN req :: getModelFallbacks (reqModelN req)).length →
          contAttempt (oracle k) = true) →
        handler req oracle
          = ⟨(oracle ((reqModelN req :: getModelFallbacks (reqModelN req)).length - 1)).status,
             failureBody
               (oracle ((reqModelN req :: getModelFallbacks (reqModelN req)).length - 1))
               (reqModelN req :: getModelFallbacks (reqModelN req)),
             (reqModelN req :: getModelFallbacks (reqModelN req)).map
               (fun m => ⟨url, m, openAIPayload m (reqSys req) (reqPrompt req), false⟩)⟩) ∧
      ∀ j, j < (reqModelN req :: getModelFallbacks (reqModelN req)).length →
        (∀ k, k < j → contAttempt (oracle k) = true) →
        (isOkStatus (oracle j).status = true →
          handler req oracle
            = ⟨200,
               .obj [("text", extractOpenAIText (oracle j)),
                     ("usedModel",
                      .str ((reqModelN req :: getModelFallbacks (reqModelN req)).getD j ""))],
               ((reqModelN req :: getModelFallbacks (reqModelN req)).take (j + 1)).map
                 (fun m => ⟨url, m, openAIPayload m (reqSys req) (reqPrompt req), false⟩)⟩) ∧
        (isOkStatus (oracle j).status = false →
          looksLikeModelNotFound (oracle j) = false →
          handler req oracle
            = ⟨(oracle j).status,
               failureBody (oracle j) (reqModelN req :: getModelFallbacks (reqModelN req)),
               ((reqModelN req :: getModelFallbacks (reqModelN req)).take (j + 1)).map
                 (fun m => ⟨url, m, openAIPayload m (reqSys req) (reqPrompt req), false⟩)⟩) := by
  have hrun := handler_run req oracle hm h1 h2 h3 h4 hub
  rw [if_pos hfam] at hrun
  obtain ⟨url, hfin⟩ := openAIRun_finish req oracle hub
  have hh : handler req oracle
      = openAIFinish
          (openAILoop oracle url (reqSys req) (reqPrompt req)
            (reqModelN req :: getModelFallbacks (reqModelN req)) 0 ⟨500, "", "", none⟩)
          (reqModelN req :: getModelFallbacks (reqModelN req)) := hrun.trans hfin
  refine ⟨url, ?_, ?_, ?_⟩
  · obtain ⟨n, hn⟩ := openAILoop_prefix oracle url (reqSys req) (reqPrompt req)
      (reqModelN req :: getModelFallbacks (reqModelN req)) 0 ⟨500, "", "", none⟩
    exact ⟨n, by rw [hh, openAIFinish_calls]; exact hn⟩
  · intro hall
    have hex := openAILoop_exhaust oracle url (reqSys req) (reqPrompt req)
      (reqModelN req :: getModelFallbacks (reqModelN req)) 0 ⟨500, "", "", none⟩
      (List.cons_ne_nil _ _) (fun k hk => by simpa using hall k hk)
    simp only [Nat.zero_add] at hex
    rw [hh, hex]
    rfl
  · intro j hj hprev
    have hspec := openAILoop_spec oracle url (reqSys req) (reqPrompt req)
      (reqModelN req :: getModelFallbacks (reqModelN req)) 0 ⟨500, "", "", none⟩ j hj
      (fun k hk => by simpa using hprev k hk)
    simp only [Nat.zero_add] at hspec
    constructor
    · intro hok
      rw [hh, hspec.1 hok]
      rfl
    · intro hok hnf
      rw [hh, hspec.2 hok hnf]
      rfl

theorem openai_attempt_order_witness :
    (handler openAIReq fbOracle).status = 200 ∧
    (handler openAIReq fbOracle).body
      = .obj [("text", .str "hello"), ("usedModel", .str "gpt-4o")] ∧
    (handler openAIReq fbOracle).calls.map (fun c => c.model)
      = ["gpt-4o-mini", "gpt-4o"] := by
  obtain ⟨url, hord, hexh, hj⟩ := openai_attempt_order openAIReq fbOracle rfl
    (by decide) (by decide) (by decide) (by decide)
    (E := "https://api.vectorengine.ai") rfl (by decide)
  have h := (hj 1 (by decide)
    (fun k hk => by
      have hk0 : k = 0 := Nat.lt_one_iff.mp hk
      subst hk0
      decide)).1 (by decide)
  refine ⟨?_, ?_, ?_⟩ <;> (rw [h]; try rfl)

/-! ### C5: the single-call Gemini branch and its text extraction -/

lemma jsOr_str_self (t : String) : jsOr (.str t) (.str "") = .str t := by
  unfold jsOr
  by_cases h : t = ""
  · subst h
    rfl
  · rw [if_pos (by simp [JsVal.truthy, h])]

lemma geminiText_mk (texts : List String) :
    geminiText (mkCandidates texts) = String.join texts := by
  show String.join
      ((texts.map fun t => JsVal.obj [("text", JsVal.str t)]).map
        fun p => JsVal.toJSStr (jsOr (optChain p "text") (JsVal.str "")))
    = String.join texts
  rw [List.map_map]
  congr 1
  conv_rhs => rw [← List.map_id texts]
  refine List.map_congr_left fun t _ => ?_
  show JsVal.toJSStr (jsOr (JsVal.str t) (JsVal.str "")) = t
  rw [jsOr_str_self]
  rfl

lemma geminiText_default {j : JsVal}
    (h : ∀ ps : List JsVal,
      optChain (optChain (optIdx (optChain j "candidates") 0) "content") "parts"
        ≠ JsVal.arr ps) :
    geminiText j = "" := by
  unfold geminiText
  rcases hx : optChain (optChain (optIdx (optChain j "candidates") 0) "content") "parts"
    with _ | _ | b | q | s | ps | fs
  · rfl
  · rfl
  · rfl
  · rfl
  · rfl
  · exact absurd hx (h ps)
  · rfl

/-- **C5.** For every validated Gemini-family request (normalized model not
starting with `gpt` or `o1`), exactly one upstream call is issued regardless
of outcome; on success the handler answers 200 with `usedModel` the
normalized model and `text` extracted from the body by concatenating the
`text` field of every part of the first candidate's content parts — the
concatenation law holds for every well-formed parts list, and any body
without such a parts array yields the empty text. -/
theorem gemini_single_call (req : Req) (oracle : Nat → UpstreamResp)
    (hm : req.method = "POST") (h1 : reqModelN req ≠ "") (h2 : reqSys req ≠ "")
    (h3 : reqPrompt req ≠ "") (h4 : reqToken req ≠ "") {E : String}
    (hub : getUpstreamBase (reqEndpointInput req) = .ok E)
    (hfam : (jsStartsWith (reqModelN req) "gpt"
             || jsStartsWith (reqModelN req) "o1") = false) :
    ∃ url u,
      (handler req oracle).calls = [geminiCall req url u] ∧
      (isOkStatus (oracle 0).status = true →
        handler req oracle
          = ⟨200,
             .obj [("text", .str (geminiText (oracle 0).json)),
                   ("usedModel", .str (reqModelN req))],
             [geminiCall req url u]⟩) ∧
      (isOkStatus (oracle 0).status = false →
        handler req oracle
          = ⟨(oracle 0).status,
             failureBody (oracle 0) (reqModelN req :: getModelFallbacks (reqModelN req)),
             [geminiCall req url u]⟩) ∧
      (∀ texts : List String, geminiText (mkCandidates texts) = String.join texts) ∧
      ∀ v : JsVal,
        (∀ ps : List JsVal,
          optChain (optChain (optIdx (optChain v "candidates") 0) "content") "parts"
            ≠ JsVal.arr ps) →
        geminiText v = "" := by
  have hrun := handler_run req oracle hm h1 h2 h3 h4 hub
  rw [if_neg (by simp [hfam])] at hrun
  obtain ⟨url, hg, u2, hp⟩ := geminiRun_reduce req oracle hub
  have hh : handler req oracle = geminiRunAt req oracle url := hrun.trans hg
  have he := geminiRunAt_eq req oracle url hp
  refine ⟨url, u2, ?_, ?_, ?_, geminiText_mk, fun v hv => geminiText_default hv⟩
  · rw [hh, he]
    by_cases hok : isOkStatus (oracle 0).status = true
    · rw [if_pos hok]
    · rw [if_neg hok]
  · intro hok
    rw [hh, he, if_pos hok]
  · intro hok
    rw [hh, he, if_neg (by simp [hok])]

theorem gemini_single_call_witness :
    (handler geminiReq (fun _ => geminiOkResp)).status = 200 ∧
    (handler geminiReq (fun _ => geminiOkResp)).body
      = .obj [("text", .str "ab"), ("usedModel", .str "gemini-1.5-pro")] ∧
    (handler geminiReq (fun _ => geminiOkResp)).calls.length = 1 := by
  obtain ⟨url, u2, hc, hsucc, _, hmk, _⟩ :=
    gemini_single_call geminiReq (fun _ => geminiOkResp) rfl
      (by decide) (by decide) (by decide) (by decide)
      (E := "https://api.vectorengine.ai") rfl (by decide)
  have h := hsucc (by decide)
  refine ⟨?_, ?_, ?_⟩ <;> (rw [h]; try rfl)

/-! ### C8: the failure-response shape -/

/-- **C8** counterexample: an upstream body that parses successfully to the
JSON literal `null` (raw body `"null"`).  The spec's detail rule (`specDetail`:
structured body whenever parseable) gives the parsed `null`, but the code's
`lastJson ?? lastRaw.slice(0, 2000)` gives the raw string slice `"null"`, and
a real surfaced Gemini-branch failure carries that string in `detail`. -/
theorem detail_mismatch_on_null_body :
    detailOf nullBodyResp ≠ specDetail nullBodyResp ∧
    JsVal.getF (handler geminiReq (fun _ => nullBodyResp)).body "detail"
      = .str "null" ∧
    specDetail nullBodyResp = .null := by
  refine ⟨fun h => ?_, rfl, rfl⟩
  have h2 : JsVal.str "null" = JsVal.null := h
  exact JsVal.noConfusion h2

/-- **C8** (amended).  For every upstream failure response: the error message
is chosen preferentially as the structured body's `error.message` when truthy,
else the top-level `message` when truthy, else the raw body truncated to at
most 500 characters when it is non-blank after trimming, else the fixed
string `"Upstream error"`; the `detail` field equals the parsed structured
body when the body parses to a non-`null` value, and otherwise — body
unparseable, or parsing to the JSON literal `null` — the raw body truncated
to at most 2000 characters; and the failure body consists of exactly the
resolved message, upstream status, upstream content-type, `detail`, and the
attempted-models list. -/
theorem failure_body_shape (r : UpstreamResp) (tried : List String) :
    ((optChain (optChain r.json "error") "message").truthy = true →
      finalMsg r = optChain (optChain r.json "error") "message") ∧
    ((optChain (optChain r.json "error") "message").truthy = false →
      (optChain r.json "message").truthy = true →
      finalMsg r = optChain r.json "message") ∧
    ((optChain (optChain r.json "error") "message").truthy = false →
      (optChain r.json "message").truthy = false →
      jsTrim r.rawBody ≠ "" →
      finalMsg r = .str (strSlice r.rawBody 500)) ∧
    ((optChain (optChain r.json "error") "message").truthy = false →
      (optChain r.json "message").truthy = false →
      jsTrim r.rawBody = "" →
      finalMsg r = .str "Upstream error") ∧
    (strSlice r.rawBody 500).length ≤ 500 ∧
    (∀ v, r.parsed = some v → v ≠ .null → detailOf r = v) ∧
    ((r.parsed = none ∨ r.parsed = some .null) →
      detailOf r = .str (strSlice r.rawBody 2000)) ∧
    (strSlice r.rawBody 2000).length ≤ 2000 ∧
    failureBody r tried
      = .obj [("error", finalMsg r), ("upstreamStatus", .num r.status),
              ("upstreamContentType", .str r.contentType),
              ("detail", detailOf r), ("triedModels", .arr (tried.map .str))] := by
  refine ⟨?_, ?_, ?_, ?_, ?_, ?_, ?_, ?_, rfl⟩
  · intro h
    unfold finalMsg jsOr
    rw [if_pos h]
  · intro ha hb
    unfold finalMsg jsOr
    rw [if_neg (by simp [ha]), if_pos hb]
  · intro ha hb hc
    have hne : r.rawBody ≠ "" := fun he => hc (by rw [he]; rfl)
    have hslice : strSlice r.rawBody 500 ≠ "" := by
      intro hcon
      have ht : r.rawBody.data.take 500 = [] := congrArg String.data hcon
      rcases List.take_eq_nil_iff.mp ht with h0 | h0
      · omega
      · exact hne (String.ext h0)
    unfold finalMsg jsOr
    rw [if_neg (by simp [ha]), if_neg (by simp [hb]), if_pos hc,
      if_pos (by simp [JsVal.truthy, hslice])]
  · intro ha hb hc
    unfold finalMsg jsOr
    rw [if_neg (by simp [ha]), if_neg (by simp [hb]), if_neg (not_not_intro hc),
      if_neg (by decide)]
  · exact List.length_take_le 500 r.rawBody.data
  · intro v hv hnn
    have hj : r.json = v := by simp [UpstreamResp.json, hv]
    unfold detailOf
    rw [hj]
    cases v <;> first | rfl | exact absurd rfl hnn
  · intro hcase
    have hj : r.json = .null := by
      rcases hcase with h0 | h0 <;> simp [UpstreamResp.json, h0]
    unfold detailOf
    rw [hj]
  · exact List.length_take_le 2000 r.rawBody.data

theorem failure_body_shape_witness :
    finalMsg nullBodyResp = .str "null" ∧ detailOf nullBodyResp = .str "null" := by
  obtain ⟨_, _, h3, _, _, _, h7, _, _⟩ := failure_body_shape nullBodyResp []
  exact ⟨h3 (by decide) (by decide) (by decide), h7 (Or.inr rfl)⟩
